import Mathlib

/-!
Verification of the detection-aggregation and review-table engine of
pycnet-audio (module pycnet.review, file src/pycnet/review/__init__.py).

The Python code works on pandas DataFrames.  We embed a score table as a
list of rows (one per clip) carrying the clip filename and the per-class
scores as an association list keyed by class code; floating point scores
and thresholds are embedded as exact rationals, Python dates as their
proleptic-Gregorian ordinal (an integer, matching datetime.date.toordinal),
and Python exceptions as the error case of an Except value.
Regex-based parsing from the source is embedded by explicit character-list
scanners that reproduce the scanning semantics of the concrete patterns
used by the code.
-/

namespace Pycnet

/-! ## Character and digit utilities -/

/-- Decide whether a character is an ASCII digit, as the regex class [0-9]. -/
def isDigitC (c : Char) : Bool := '0' ≤ c && c ≤ '9'

/-- Decide whether a character is in the regex class [A-Za-z0-9_]. -/
def isWordC (c : Char) : Bool :=
  ('A' ≤ c && c ≤ 'Z') || ('a' ≤ c && c ≤ 'z') || isDigitC c || c = '_'

/-- Numeric value of a list of ASCII digit characters read in base 10,
mirroring the Python built-in int applied to a digit string. -/
def natOfDigits (l : List Char) : ℕ :=
  l.foldl (fun a c => 10 * a + (c.toNat - '0'.toNat)) 0

/-- Numeric value of a digit string, as the Python built-in int. -/
def pyInt (s : String) : ℕ := natOfDigits s.toList

/-- Decimal digit characters of a natural number (helper for rendering);
structural recursion on a fuel bound so the kernel can evaluate it. -/
def natDigitsAux : ℕ → ℕ → List Char
  | 0, _ => []
  | fuel + 1, n =>
    if n < 10 then [Char.ofNat (n + '0'.toNat)]
    else natDigitsAux fuel (n / 10) ++ [Char.ofNat (n % 10 + '0'.toNat)]

/-- Decimal digit characters of a natural number (helper for rendering). -/
def natDigits (n : ℕ) : List Char := natDigitsAux (n + 1) n

/-- Render a natural number in decimal, as the Python built-in str. -/
def natStr (n : ℕ) : String := String.mk (natDigits n)

/-- Render a natural number zero-padded to two digits, as the strftime
fields %H, %M and %S do. -/
def pad2 (n : ℕ) : String := if n < 10 then "0" ++ natStr n else natStr n

/-! ## Generic list utilities -/

/-- Keep the first occurrence of every element, preserving first-appearance
order.  This models the set of group keys produced by a pandas groupby
(whose key order we do not rely on in any theorem). -/
def firstDedupAux {α : Type} [DecidableEq α] : ℕ → List α → List α
  | 0, _ => []
  | _, [] => []
  | fuel + 1, a :: l => a :: firstDedupAux fuel (l.filter (fun x => x ≠ a))

/-- Keep the first occurrence of every element (entry point with enough
fuel for the whole list). -/
def firstDedup {α : Type} [DecidableEq α] (l : List α) : List α :=
  firstDedupAux l.length l

/-- Least element of a list of integers, with junk value 0 on the empty
list.  This models the Python built-in min applied to a nonempty list. -/
def minInt : List ℤ → ℤ
  | [] => 0
  | a :: l => l.foldl min a

/-- Lexicographic comparison of character lists by code point, the order
Python uses to compare and sort strings.  Defined directly so the kernel
can evaluate it (the core String order is not kernel-reducible). -/
def strLtB : List Char → List Char → Bool
  | [], [] => false
  | [], _ :: _ => true
  | _ :: _, [] => false
  | c :: as2, d :: bs2 => if c < d then true else if d < c then false else strLtB as2 bs2

/-- Strict lexicographic order on strings by code point. -/
def sLt (a b : String) : Prop := strLtB a.toList b.toList = true

instance : DecidableRel sLt := fun a b => by unfold sLt; infer_instance

/-- Reflexive closure of sLt. -/
def sLe (a b : String) : Prop := sLt a b ∨ a = b

instance : DecidableRel sLe := fun a b => by unfold sLe; infer_instance

theorem strLtB_irrefl : ∀ l : List Char, strLtB l l = false := by
  intro l
  induction l with
  | nil => rfl
  | cons c t ih => simp [strLtB, ih]

theorem strLtB_trans : ∀ a b c : List Char,
    strLtB a b = true → strLtB b c = true → strLtB a c = true := by
  intro a
  induction a with
  | nil =>
    intro b c hab hbc
    cases b with
    | nil => exact absurd hab (by simp [strLtB])
    | cons d bs =>
      cases c with
      | nil => exact absurd hbc (by simp [strLtB])
      | cons e cs => simp [strLtB]
  | cons x as2 ih =>
    intro b c hab hbc
    cases b with
    | nil => exact absurd hab (by simp [strLtB])
    | cons d bs =>
      cases c with
      | nil => exact absurd hbc (by simp [strLtB])
      | cons e cs =>
        simp only [strLtB] at hab hbc ⊢
        by_cases hxd : x < d
        · by_cases hde : d < e
          · rw [if_pos (lt_trans hxd hde)]
          · rw [if_neg hde] at hbc
            by_cases hed : e < d
            · rw [if_pos hed] at hbc; cases hbc
            · have hde2 : d = e := le_antisymm (not_lt.1 hed) (not_lt.1 hde)
              rw [if_pos (hde2 ▸ hxd)]
        · rw [if_neg hxd] at hab
          by_cases hdx : d < x
          · rw [if_pos hdx] at hab; cases hab
          · have hxd2 : x = d := le_antisymm (not_lt.1 hdx) (not_lt.1 hxd)
            rw [if_neg hdx] at hab
            by_cases hde : d < e
            · rw [if_pos (hxd2 ▸ hde)]
            · rw [if_neg hde] at hbc
              by_cases hed : e < d
              · rw [if_pos hed] at hbc; cases hbc
              · rw [if_neg hed] at hbc
                have hde2 : d = e := le_antisymm (not_lt.1 hed) (not_lt.1 hde)
                subst hxd2
                subst hde2
                rw [if_neg (lt_irrefl x), if_neg (lt_irrefl x)]
                exact ih bs cs hab hbc

theorem strLtB_eq_of_not : ∀ a b : List Char,
    strLtB a b = false → strLtB b a = false → a = b := by
  intro a
  induction a with
  | nil =>
    intro b hab hba
    cases b with
    | nil => rfl
    | cons d bs => exact absurd hab (by simp [strLtB])
  | cons x as2 ih =>
    intro b hab hba
    cases b with
    | nil => exact absurd hba (by simp [strLtB])
    | cons d bs =>
      simp only [strLtB] at hab hba
      by_cases hxd : x < d
      · rw [if_pos hxd] at hab; cases hab
      · by_cases hdx : d < x
        · rw [if_pos hdx] at hba; cases hba
        · have hx : x = d := le_antisymm (not_lt.1 hdx) (not_lt.1 hxd)
          subst hx
          rw [if_neg (lt_irrefl x), if_neg (lt_irrefl x)] at hab hba
          rw [ih bs hab hba]

theorem sLt_trans {a b c : String} (h1 : sLt a b) (h2 : sLt b c) : sLt a c :=
  strLtB_trans _ _ _ h1 h2

theorem sLt_irrefl (a : String) : ¬ sLt a a := by
  unfold sLt
  rw [strLtB_irrefl]
  simp

theorem sLt_connex {a b : String} (hne : a ≠ b) : sLt a b ∨ sLt b a := by
  by_cases h1 : sLt a b
  · exact Or.inl h1
  · by_cases h2 : sLt b a
    · exact Or.inr h2
    · exfalso
      apply hne
      have e1 : strLtB a.toList b.toList = false := by
        revert h1; unfold sLt; cases strLtB a.toList b.toList <;> simp
      have e2 : strLtB b.toList a.toList = false := by
        revert h2; unfold sLt; cases strLtB b.toList a.toList <;> simp
      have := strLtB_eq_of_not _ _ e1 e2
      cases a with
      | mk la =>
        cases b with
        | mk lb => exact congrArg String.mk (by simpa using this)

instance : IsTrans String sLt := ⟨fun _ _ _ => sLt_trans⟩

instance : IsIrrefl String sLt := ⟨sLt_irrefl⟩

instance : IsAntisymm String sLt :=
  ⟨fun a b h1 h2 => absurd (sLt_trans h1 h2) (sLt_irrefl a)⟩

/-- Insert a string into a sorted duplicate-free list, keeping it sorted
and duplicate free. -/
def insSorted (a : String) : List String → List String
  | [] => [a]
  | b :: l => if a = b then b :: l else if sLt a b then a :: b :: l else b :: insSorted a l

/-- Sorted list of the distinct elements of a list of strings, ascending.
This models the Python idiom sorted(list(set(xs))). -/
def sortDedup (l : List String) : List String := l.foldr insSorted []

theorem mem_insSorted (a x : String) (l : List String) :
    x ∈ insSorted a l ↔ x = a ∨ x ∈ l := by
  induction l with
  | nil => simp [insSorted]
  | cons b t ih =>
    simp only [insSorted]
    split
    · next hab => subst hab; simp [List.mem_cons]
    · split
      · simp only [List.mem_cons]
      · simp only [List.mem_cons, ih]; tauto

theorem mem_sortDedup (x : String) (l : List String) :
    x ∈ sortDedup l ↔ x ∈ l := by
  induction l with
  | nil => simp [sortDedup]
  | cons a t ih =>
    simp only [sortDedup, List.foldr_cons] at *
    rw [mem_insSorted, ih, List.mem_cons]

theorem sorted_nodup_insSorted (a : String) (l : List String)
    (hs : l.Sorted sLt) : (insSorted a l).Sorted sLt := by
  induction l with
  | nil => simp [insSorted]
  | cons b t ih =>
    have hst : t.Sorted sLt := hs.of_cons
    have hbt : ∀ x ∈ t, sLt b x := fun x hx => List.rel_of_sorted_cons hs x hx
    simp only [insSorted]
    split
    · next hab => subst hab; exact hs
    · next hab =>
      split
      · next hlt =>
        refine List.sorted_cons.2 ⟨?_, hs⟩
        intro x hx
        rcases List.mem_cons.1 hx with h | h
        · exact h ▸ hlt
        · exact sLt_trans hlt (hbt x h)
      · next hlt =>
        refine List.sorted_cons.2 ⟨?_, ih hst⟩
        intro x hx
        rcases (mem_insSorted a x t).1 hx with h | h
        · subst h
          rcases sLt_connex hab with h1 | h1
          · exact absurd h1 hlt
          · exact h1
        · exact hbt x h

theorem sorted_sortDedup (l : List String) : (sortDedup l).Sorted sLt := by
  induction l with
  | nil => simp [sortDedup]
  | cons a t ih => exact sorted_nodup_insSorted a _ ih

/-- Two lists with the same members have the same sortDedup; the result is
determined by the set of members only. -/
theorem sortDedup_ext (l1 l2 : List String) (h : ∀ x, x ∈ l1 ↔ x ∈ l2) :
    sortDedup l1 = sortDedup l2 := by
  have h1 := sorted_sortDedup l1
  have h2 := sorted_sortDedup l2
  have hmem : ∀ x, x ∈ sortDedup l1 ↔ x ∈ sortDedup l2 := by
    intro x; rw [mem_sortDedup, mem_sortDedup]; exact h x
  have hnd1 : (sortDedup l1).Nodup := h1.nodup
  have hnd2 : (sortDedup l2).Nodup := h2.nodup
  have hperm : List.Perm (sortDedup l1) (sortDedup l2) :=
    (List.perm_ext_iff_of_nodup hnd1 hnd2).2 hmem
  exact List.eq_of_perm_of_sorted hperm h1 h2

/-- Summing a 0-1 indicator over a list counts the elements satisfying the
predicate.  This connects the boolean-indicator-then-sum aggregation of
the pandas code with a plain count. -/
theorem sum_indicator_eq_length_filter {α : Type} (p : α → Bool) (l : List α) :
    (l.map (fun x => if p x then (1 : ℕ) else 0)).sum = (l.filter p).length := by
  induction l with
  | nil => rfl
  | cons a t ih =>
    by_cases h : p a <;> simp [List.filter_cons, h, ih, Nat.add_comm]

theorem foldl_min_le (l : List ℤ) :
    ∀ a : ℤ, l.foldl min a ≤ a ∧ ∀ x ∈ l, l.foldl min a ≤ x := by
  induction l with
  | nil => intro a; exact ⟨le_refl a, by simp⟩
  | cons b t ih =>
    intro a
    obtain ⟨h1, h2⟩ := ih (min a b)
    simp only [List.foldl_cons]
    refine ⟨le_trans h1 (min_le_left _ _), ?_⟩
    intro x hx
    rcases List.mem_cons.1 hx with h | h
    · subst h; exact le_trans h1 (min_le_right _ _)
    · exact h2 x h

theorem minInt_le (l : List ℤ) (x : ℤ) (hx : x ∈ l) : minInt l ≤ x := by
  rcases l with _ | ⟨a, t⟩
  · cases hx
  · rcases List.mem_cons.1 hx with h | h
    · exact h ▸ (foldl_min_le t a).1
    · exact (foldl_min_le t a).2 x h

/-! ## Regex scanners for the clip-name patterns

The Python code uses re with the concrete patterns
"part_[0-9]+", "_[0-9]{8}_[0-9]{6}_part_[0-9]+\\.png",
"[0-9]{8}_[0-9]{6}", "[0]*?\\.[0-9]+" and "[A-Za-z0-9_]+".
Each is embedded as an explicit scanner over character lists with the
same leftmost-match semantics. -/

/-- Match the pattern part_[0-9]+ at the head of the list: the literal
"part_" followed by a maximal nonempty run of digits. -/
def partMatchAt (l : List Char) : Option (List Char) :=
  match l with
  | 'p' :: 'a' :: 'r' :: 't' :: '_' :: rest =>
    let ds := rest.takeWhile isDigitC
    if ds.isEmpty then none else some ('p' :: 'a' :: 'r' :: 't' :: '_' :: ds)
  | _ => none

/-- Leftmost match of part_[0-9]+ in a character list, as re.search and
re.findall(...)[0] produce for this pattern. -/
def findPartAux : List Char → Option (List Char)
  | [] => none
  | c :: rest =>
    match partMatchAt (c :: rest) with
    | some m => some m
    | none => findPartAux rest

/-- Take exactly n leading characters if they are all digits. -/
def digitsTake (n : ℕ) (l : List Char) : Option (List Char × List Char) :=
  let pre := l.take n
  if pre.length = n ∧ pre.all isDigitC then some (pre, l.drop n) else none

/-- Match the clip-stamp pattern of getClipInfo at the head of the list:
underscore, 8 digits, underscore, 6 digits, the literal "_part_", a
maximal nonempty digit run, and the literal ".png". -/
def stampMatchAt (l : List Char) : Option (List Char) :=
  match l with
  | '_' :: r1 =>
    match digitsTake 8 r1 with
    | none => none
    | some (d8, r2) =>
      match r2 with
      | '_' :: r3 =>
        match digitsTake 6 r3 with
        | none => none
        | some (d6, r4) =>
          match r4 with
          | '_' :: 'p' :: 'a' :: 'r' :: 't' :: '_' :: r5 =>
            let ds := r5.takeWhile isDigitC
            if ds.isEmpty then none
            else
              match r5.dropWhile isDigitC with
              | '.' :: 'p' :: 'n' :: 'g' :: _ =>
                some ('_' :: d8 ++ '_' :: d6 ++
                  '_' :: 'p' :: 'a' :: 'r' :: 't' :: '_' :: ds ++ ['.', 'p', 'n', 'g'])
              | _ => none
          | _ => none
      | _ => none
  | _ => none

/-- Leftmost match of the clip-stamp pattern in a character list. -/
def findStampAux : List Char → Option (List Char)
  | [] => none
  | c :: rest =>
    match stampMatchAt (c :: rest) with
    | some m => some m
    | none => findStampAux rest

/-- Split a character list at every separator in the regex class [-._],
keeping empty pieces, as re.split does. -/
def splitSepsAux (cur : List Char) : List Char → List (List Char)
  | [] => [cur.reverse]
  | c :: rest =>
    if c = '-' ∨ c = '.' ∨ c = '_' then cur.reverse :: splitSepsAux [] rest
    else splitSepsAux (c :: cur) rest

/-! ## Calendar arithmetic

Python datetime.date values are embedded as their proleptic-Gregorian
ordinal (date.toordinal), so date comparison is integer comparison and
date subtraction in days is integer subtraction. -/

/-- Gregorian leap-year test. -/
def isLeap (y : ℕ) : Bool := y % 4 = 0 && (y % 100 ≠ 0 || y % 400 = 0)

/-- Number of days in a month (m between 1 and 12). -/
def daysInMonth (y m : ℕ) : ℕ :=
  if m = 2 then (if isLeap y then 29 else 28)
  else if m = 4 ∨ m = 6 ∨ m = 9 ∨ m = 11 then 30 else 31

/-- Number of days in year y before the first day of month m. -/
def daysBeforeMonth (y m : ℕ) : ℕ :=
  ((List.range (m - 1)).map (fun i => daysInMonth y (i + 1))).sum

/-- Proleptic-Gregorian ordinal of a calendar date, as
datetime.date(y, m, d).toordinal(): day 1 is January 1 of year 1. -/
def toOrdinal (y m d : ℕ) : ℤ :=
  365 * ((y : ℤ) - 1) + ((y : ℤ) - 1) / 4 - ((y : ℤ) - 1) / 100 + ((y : ℤ) - 1) / 400
    + (daysBeforeMonth y m : ℤ) + (d : ℤ)

/-- Validity of the fields parsed by strptime with format Y m d H M S:
datetime accepts years 1 to 9999 and rejects out-of-range months, days,
hours, minutes and seconds with a ValueError. -/
def validStamp (y m d hh mi ss : ℕ) : Bool :=
  1 ≤ y && y ≤ 9999 && 1 ≤ m && m ≤ 12 && 1 ≤ d && d ≤ daysInMonth y m &&
  hh ≤ 23 && mi ≤ 59 && ss ≤ 59

/-- Parse the 15 characters YYYYMMDD underscore HHMMSS, as
datetime.strptime(s, "%Y%m%d_%H%M%S"), returning the ordinal of the date
on success and nothing when datetime would raise.  Only the date is
returned because the code only consumes the Date component downstream. -/
def parseStamp15 (l : List Char) : Option ℤ :=
  if l.length = 15 ∧ (l.take 8).all isDigitC ∧ l.getD 8 ' ' = '_' ∧
      ((l.drop 9).take 6).all isDigitC then
    let y := natOfDigits (l.take 4)
    let m := natOfDigits ((l.drop 4).take 2)
    let d := natOfDigits ((l.drop 6).take 2)
    let hh := natOfDigits ((l.drop 9).take 2)
    let mi := natOfDigits ((l.drop 11).take 2)
    let ss := natOfDigits ((l.drop 13).take 2)
    if validStamp y m d hh mi ss then some (toOrdinal y m d) else none
  else none

/-- Remove every non-overlapping occurrence of a nonempty pattern,
scanning left to right: the embedding of the Python str.replace(pat, "")
used by getClipInfo.  Structural recursion on a fuel bound. -/
def removeAllAux (pat : List Char) : ℕ → List Char → List Char
  | 0, s => s
  | _, [] => []
  | fuel + 1, c :: rest =>
    if pat.isPrefixOf (c :: rest) ∧ ¬ pat.isEmpty then
      removeAllAux pat fuel ((c :: rest).drop pat.length)
    else c :: removeAllAux pat fuel rest

/-- Remove every occurrence of pat from s, as s.replace(pat, "") does. -/
def pyRemoveAll (s pat : String) : String :=
  String.mk (removeAllAux pat.toList s.toList.length s.toList)

/-! ## Clip metadata parser (getClipInfo, buildClipDataFrame) -/

/-- Result of getClipInfo.  The Python function returns a dict; on any
parse failure the except branch returns a dict of None values (with no
Part key at all), embedded here as a record of none fields. -/
structure ClipInfo where
  area : Option String
  site : Option String
  stn : Option String
  date : Option ℤ
  part : Option String
  deriving DecidableEq

/-- Dictionary returned by the except branch of getClipInfo. -/
def degradedClipInfo : ClipInfo := ⟨none, none, none, none, none⟩

/-- Embedding of pycnet.review.getClipInfo: extract area, site, station,
date and part from a clip filename; on a malformed name (no stamp match,
or a timestamp rejected by strptime) return the degraded all-None record
instead of raising. -/
def getClipInfo (clipName : String) : ClipInfo :=
  match findStampAux clipName.toList with
  | none => degradedClipInfo
  | some stamp =>
    let stampStr : String := String.mk stamp
    let pre := pyRemoveAll clipName stampStr
    let siteVals := (splitSepsAux [] pre.toList).map String.mk
    let triple :=
      if siteVals.length = 3 then (siteVals.getD 0 "", siteVals.getD 1 "", siteVals.getD 2 "")
      else ("", "", pre)
    match parseStamp15 ((stamp.drop 1).take 15) with
    | none => degradedClipInfo
    | some ord =>
      let partTok := ((findPartAux clipName.toList).map (fun m => String.mk (m.drop 5))).getD ""
      { area := some triple.1, site := some triple.2.1, stn := some triple.2.2,
        date := some ord, part := some partTok }

/-! ## Score tables -/

/-- One row of a PNW-Cnet score table: the clip filename and the score of
each class, keyed by class code. -/
structure ScoreRow where
  filename : String
  scores : List (String × ℚ)
  deriving DecidableEq

/-- A score table as read by readPredFile: the first CSV column is
Filename, the remaining columns are the class codes. -/
structure PredTable where
  classCols : List String
  rows : List ScoreRow
  deriving DecidableEq

/-- Score of a row for a class code (the value of the class column). -/
def ScoreRow.score (r : ScoreRow) (c : String) : ℚ :=
  ((r.scores.find? (fun p => p.1 = c)).map Prod.snd).getD 0

/-- One row of the clip DataFrame built by buildClipDataFrame. -/
structure ClipRow where
  filename : String
  area : String
  site : String
  stn : String
  part : String
  date : ℤ
  recDay : ℤ
  recWeek : ℤ
  deriving DecidableEq

/-- Rows of the clip DataFrame: one row per parsed filename, with
Rec_Day = Date - earliest Date + 1 and Rec_Week from
int((day - 1) / 7.) + 1; for day at least 1 the float truncation equals
integer floor division, embedded as such. -/
def clipRowsOf (infos : List (String × ClipInfo)) : List ClipRow :=
  infos.map (fun p =>
    { filename := p.1, area := p.2.area.getD "", site := p.2.site.getD "",
      stn := p.2.stn.getD "", part := p.2.part.getD "",
      date := p.2.date.getD 0,
      recDay := p.2.date.getD 0 - minInt (infos.map (fun q => q.2.date.getD 0)) + 1,
      recWeek :=
        (p.2.date.getD 0 - minInt (infos.map (fun q => q.2.date.getD 0)) + 1 - 1) / 7 + 1 })

/-- Embedding of pycnet.review.buildClipDataFrame.  The Python function
computes min over the Date column with the built-in min and subtracts
dates; with an empty table, or with any clip whose name failed to parse
(Date None), those operations raise, embedded as the error case. -/
def buildClipDataFrame (t : PredTable) : Except Unit (List ClipRow) :=
  if (t.rows.map (fun r => (r.filename, getClipInfo r.filename))).isEmpty then .error ()
  else if (t.rows.map (fun r => (r.filename, getClipInfo r.filename))).all
      (fun p => p.2.date.isSome) then
    .ok (clipRowsOf (t.rows.map (fun r => (r.filename, getClipInfo r.filename))))
  else .error ()

/-- Map a fallible function over a list, failing as soon as one call
fails (the semantics of mapM in the Except monad, and of a worker pool
whose any failure aborts the whole call). -/
def exceptMapList {α β : Type} (f : α → Except Unit β) : List α → Except Unit (List β)
  | [] => .ok []
  | a :: l =>
    match f a with
    | .error e => .error e
    | .ok b =>
      match exceptMapList f l with
      | .error e => .error e
      | .ok bs => .ok (b :: bs)

/-! ## Source file resolver (getSourceFile, getSourceFolders) -/

/-- Index just after which os.path.splitext splits: position of the last
dot, provided some earlier character of the name is not a dot (leading
dots alone never start an extension). -/
def splitextIdx (l : List Char) : Option ℕ :=
  match (l.reverse.findIdx? (fun c => c = '.')).map (fun k => l.length - 1 - k) with
  | none => none
  | some i => if (l.take i).any (fun c => c ≠ '.') then some i else none

/-- Embedding of os.path.splitext restricted to plain file names (the
clip names contain no path separator): root and extension. -/
def splitext (s : String) : String × String :=
  match splitextIdx s.toList with
  | none => (s, "")
  | some i => (String.mk (s.toList.take i), String.mk (s.toList.drop i))

/-- Embedding of pathlib.PurePath.stem for a plain file name: the name
without its suffix, where the suffix is the part from the last dot when
that dot is neither leading nor trailing. -/
def pathStem (s : String) : String :=
  let l := s.toList
  match l.reverse.findIdx? (fun c => c = '.') with
  | none => s
  | some k =>
    let i := l.length - 1 - k
    if 0 < i ∧ i < l.length - 1 then String.mk (l.take i) else s

/-- Index of the first occurrence of a pattern as a sublist. -/
def firstSubIdx (pat : List Char) : List Char → Option ℕ
  | [] => if pat.isEmpty then some 0 else none
  | c :: rest =>
    if pat.isPrefixOf (c :: rest) then some 0
    else (firstSubIdx pat rest).map (fun n => n + 1)

/-- Text before the first occurrence of sep, the whole string when sep
does not occur: the [0] element of the Python str.split(sep). -/
def pySplitHead (s sep : String) : String :=
  match firstSubIdx sep.toList s.toList with
  | none => s
  | some i => String.mk (s.toList.take i)

/-- Embedding of pycnet.review.getSourceFile.  When the clip name has no
part marker the function returns two empty strings; when the marker is
present it rebuilds the source file name by cutting the extension and
everything from the string "_part" on, then appending ext.  The source
indexes findall(base_name)[0], which raises when the only part marker
sat inside the extension; that raise is the error case. -/
def getSourceFile (clipName ext : String) : Except Unit (String × String) :=
  if (findPartAux clipName.toList).isNone then .ok ("", "")
  else
    let baseName := (splitext clipName).1
    match findPartAux baseName.toList with
    | none => .error ()
    | some m => .ok (pySplitHead baseName "_part" ++ ext, String.mk m)

/-- One row of the audio inventory table consulted by getSourceFolders
(columns Folder and Filename; the Size and Duration columns of the real
inventory are never consumed by this code path and are omitted). -/
structure InvRow where
  folder : String
  filename : String
  deriving DecidableEq

/-- One output row of getSourceFolders.  FOLDER and IN_FILE are none when
the left join found no inventory row for the clip (pandas NaN). -/
structure SourceRow where
  folder : Option String
  inFile : Option String
  part : String
  filename : String
  deriving DecidableEq

/-- Embedding of the mode="from_source_files" branch of
pycnet.review.getSourceFolders.  The inventory table of top_dir (read
from disk, or built on demand) is passed in as inv.  The code left-merges
the clip stems with the inventory stems, so a clip without a match keeps
one row with NaN FOLDER and IN_FILE, and a clip with k matches produces k
rows; it then compares row counts and returns None (ok none here) on a
mismatch, which can only arise from duplicate matches.  A raise inside
getSourceFile propagates as the error case. -/
def getSourceFoldersFromSourceFiles (clips : List String) (inv : List InvRow)
    (ext : String) : Except Unit (Option (List SourceRow)) :=
  match exceptMapList (fun c => getSourceFile c ext) clips with
  | .error e => .error e
  | .ok pairs =>
  let src := (clips.zip pairs).map (fun p => (p.1, pathStem p.2.1, p.2.2))
  let joined := src.flatMap (fun s =>
    let ms := inv.filter (fun r => pathStem r.filename = s.2.1)
    if ms.isEmpty then [{ folder := none, inFile := none, part := s.2.2, filename := s.1 }]
    else ms.map (fun r =>
      { folder := some r.folder, inFile := some r.filename, part := s.2.2, filename := s.1 }))
  if joined.length ≠ src.length then .ok none
  else .ok (some joined)

/-! ## Review criteria string grammar (parseStrReviewCriteria) -/

/-- Match the threshold pattern of parseStrReviewCriteria at the head of
the list: lazily as many zeros as are followed by a dot, the dot, and a
maximal nonempty digit run. -/
def threshMatchAt (l : List Char) : Option (List Char × List Char) :=
  match l.dropWhile (fun c => c = '0') with
  | '.' :: r2 =>
    if (r2.takeWhile isDigitC).isEmpty then none
    else some (l.takeWhile (fun c => c = '0') ++ '.' :: r2.takeWhile isDigitC,
      r2.dropWhile isDigitC)
  | _ => none

theorem dropWhile_length_le {α : Type} (p : α → Bool) (l : List α) :
    (l.dropWhile p).length ≤ l.length :=
  (List.dropWhile_sublist p).length_le

theorem threshMatchAt_rem_lt (l : List Char) (m rem : List Char)
    (h : threshMatchAt l = some (m, rem)) : rem.length < l.length := by
  unfold threshMatchAt at h
  split at h
  · next r2 heq =>
    split at h
    · simp at h
    · simp only [Option.some.injEq, Prod.mk.injEq] at h
      obtain ⟨hm, hrem⟩ := h
      subst hrem
      have h1 : (r2.dropWhile isDigitC).length ≤ r2.length := dropWhile_length_le isDigitC r2
      have h2 : ('.' :: r2).length ≤ l.length := by
        rw [← heq]; exact dropWhile_length_le (fun c => c = '0') l
      simp only [List.length_cons] at h2
      omega
  · simp at h

/-- Scanner realizing both re.split and re.findall for the threshold
pattern of parseStrReviewCriteria in one pass over the string: returns
the pieces between matches (empties included, as re.split yields) and
the list of matches, scanning left to right. -/
def critScanFuel (fuel : ℕ) (cur : List Char) (l : List Char) :
    List (List Char) × List (List Char) :=
  match fuel, l with
  | _, [] => ([cur.reverse], [])
  | 0, _ => ([cur.reverse], [])
  | fuel + 1, c :: rest =>
    match threshMatchAt (c :: rest) with
    | some mr =>
      let p := critScanFuel fuel [] mr.2
      (cur.reverse :: p.1, mr.1 :: p.2)
    | none => critScanFuel fuel (c :: cur) rest

/-- Scanner entry point with enough fuel for the whole string. -/
def critScanAux (cur : List Char) (l : List Char) :
    List (List Char) × List (List Char) :=
  critScanFuel l.length cur l

/-- Maximal runs of characters in the class [A-Za-z0-9_], as re.findall
with the class-code pattern of parseStrReviewCriteria. -/
def wordTokensAux (cur : List Char) : List Char → List (List Char)
  | [] => if cur.isEmpty then [] else [cur.reverse]
  | c :: rest =>
    if isWordC c then wordTokensAux (c :: cur) rest
    else if cur.isEmpty then wordTokensAux [] rest
    else cur.reverse :: wordTokensAux [] rest

/-- Rational value of a matched threshold token (zeros, a dot, digits),
as the Python float() of that token.  The value is exact here; no claim
under verification depends on binary floating point representation. -/
def threshVal (tok : List Char) : ℚ :=
  let ds := (tok.dropWhile (fun c => c ≠ '.')).drop 1
  (natOfDigits ds : ℚ) / (10 : ℚ) ^ ds.length

/-- Insert one key-value pair with Python dict semantics: an existing key
keeps its position and takes the new value, a new key is appended. -/
def pyDictInsert (acc : List (String × ℚ)) (kv : String × ℚ) : List (String × ℚ) :=
  if acc.any (fun p => p.1 = kv.1) then
    acc.map (fun p => if p.1 = kv.1 then (p.1, kv.2) else p)
  else acc ++ [kv]

/-- Embedding of dict(pairs): first-insertion key order, last value wins. -/
def pyDict (l : List (String × ℚ)) : List (String × ℚ) := l.foldl pyDictInsert []

/-- Class groups of a criteria string: the nonempty pieces left by
splitting on threshold tokens. -/
def critClassGroups (s : String) : List (List Char) :=
  (critScanAux [] s.toList).1.filter (fun g => g ≠ [])

/-- Threshold tokens of a criteria string, in match order. -/
def critThresholds (s : String) : List (List Char) :=
  (critScanAux [] s.toList).2

/-- The crit_list of parseStrReviewCriteria: each class token of group i
paired with the value of threshold token i. -/
def critPairs (s : String) : List (String × ℚ) :=
  ((critClassGroups s).zip (critThresholds s)).flatMap (fun gt =>
    (wordTokensAux [] gt.1).map (fun tok => (String.mk tok, threshVal gt.2)))

/-- Embedding of pycnet.review.parseStrReviewCriteria: split the string
on threshold tokens, keep the nonempty pieces as class groups, fail (none)
when the number of groups differs from the number of thresholds, and
otherwise give every class token of group i the value of threshold i,
collected into a dict. -/
def parseStrReviewCriteria (critString : String) : Option (List (String × ℚ)) :=
  if (critClassGroups critString).length ≠ (critThresholds critString).length then none
  else some (pyDict (critPairs critString))

/-! ## Apparent detections and tallies -/

/-- Embedding of pycnet.review.getApparentDetections: empty result when
the class is not among the class columns (all columns but the first) or
the threshold is outside the half-open interval from 0 exclusive to 1
inclusive, otherwise the rows whose score for the class is at least the
threshold. -/
def getApparentDetections (t : PredTable) (classCode : String) (scoreThreshold : ℚ) :
    List ScoreRow :=
  if classCode ∈ t.classCols then
    if 0 < scoreThreshold ∧ scoreThreshold ≤ 1 then
      t.rows.filter (fun r => scoreThreshold ≤ r.score classCode)
    else []
  else []

/-- Rounding to two decimal places, as DataFrame.round 2 does on the
Effort column.  Numpy rounds half to even; an Effort value is a count
divided by 300, whose hundredfold is a third of an integer and never an
exact half, so round-half-up coincides with numpy on all reachable
inputs. -/
def round2 (q : ℚ) : ℚ := (round (q * 100) : ℚ) / 100

/-- One row of the recording-effort summary. -/
structure EffortRow where
  area : String
  site : String
  stn : String
  date : ℤ
  recDay : ℤ
  recWeek : ℤ
  clips : ℕ
  effort : ℚ
  deriving DecidableEq

/-- Grouping key of summarizeRecordingEffort. -/
def effortKey (c : ClipRow) : String × String × String × ℤ × ℤ × ℤ :=
  (c.area, c.site, c.stn, c.date, c.recDay, c.recWeek)

/-- Embedding of pycnet.review.summarizeRecordingEffort: group the clip
table by area, site, station, date, recording day and week, count clips,
and convert to hours at 300 clips per hour rounded to 2 decimals.  Group
rows appear in first-occurrence order (pandas sorts groups by key; no
theorem below depends on row order). -/
def summarizeRecordingEffort (t : PredTable) : Except Unit (List EffortRow) :=
  match buildClipDataFrame t with
  | .error e => .error e
  | .ok cl =>
  let keys := firstDedup (cl.map effortKey)
  .ok (keys.map (fun k =>
    let n := (cl.filter (fun c => effortKey c = k)).length
    { area := k.1, site := k.2.1, stn := k.2.2.1, date := k.2.2.2.1,
      recDay := k.2.2.2.2.1, recWeek := k.2.2.2.2.2, clips := n,
      effort := round2 ((n : ℚ) / 300) }))

/-- One row of the detection tally at one threshold. -/
structure TallyRow where
  area : String
  site : String
  stn : String
  date : ℤ
  threshold : ℚ
  counts : List (String × ℕ)
  deriving DecidableEq

/-- Grouping key of tallyDetections. -/
def groupKey (c : ClipRow) : String × String × String × ℤ :=
  (c.area, c.site, c.stn, c.date)

/-- Embedding of pycnet.review.tallyDetections: per class, a boolean
score-at-least-threshold indicator per clip, aligned positionally with
the clip table, summed within each area, site, station, date group,
with the threshold stamped on every row.  Group rows appear in
first-occurrence order (pandas sorts groups by key; no theorem below
depends on row order). -/
def tallyDetections (t : PredTable) (scoreThreshold : ℚ) : Except Unit (List TallyRow) :=
  match buildClipDataFrame t with
  | .error e => .error e
  | .ok cl =>
  let paired := t.rows.zip cl
  let keys := firstDedup (cl.map groupKey)
  .ok (keys.map (fun k =>
    { area := k.1, site := k.2.1, stn := k.2.2.1, date := k.2.2.2,
      threshold := scoreThreshold,
      counts := t.classCols.map (fun c =>
        (c, ((paired.filter (fun pr => groupKey pr.2 = k)).map
          (fun pr => if scoreThreshold ≤ pr.1.score c then (1 : ℕ) else 0)).sum)) }))

/-- Embedding of the Python range builtin for positive step. -/
def pyRange (start stop step : ℕ) : List ℕ :=
  (List.range ((stop - start + step - 1) / step)).map (fun i => start + step * i)

/-- The fixed threshold ladder of summarizeDetections:
[x / 100. for x in list(range(5, 100, 5)) + [98, 99]]. -/
def summarizeDetectionsThresholds : List ℚ :=
  ((pyRange 5 100 5) ++ [98, 99]).map (fun x => (x : ℚ) / 100)

/-- One row of the detection summary: recording effort of the group plus
the tally of one threshold.  Threshold and counts are none when the left
join found no tally row for the group (pandas NaN). -/
structure SummaryRow where
  area : String
  site : String
  stn : String
  date : ℤ
  recDay : ℤ
  recWeek : ℤ
  clips : ℕ
  effort : ℚ
  threshold : Option ℚ
  counts : Option (List (String × ℕ))
  deriving DecidableEq

/-- Comparison on optional thresholds: NaN sorts last in pandas. -/
def optQLeB (a b : Option ℚ) : Bool :=
  match a, b with
  | none, none => true
  | none, some _ => false
  | some _, none => true
  | some x, some y => x ≤ y

/-- Sort key of summarizeDetections: Threshold, Area, Site, Stn, Date. -/
def summaryLeB (a b : SummaryRow) : Bool :=
  if a.threshold ≠ b.threshold then optQLeB a.threshold b.threshold
  else if a.area ≠ b.area then a.area ≤ b.area
  else if a.site ≠ b.site then a.site ≤ b.site
  else if a.stn ≠ b.stn then a.stn ≤ b.stn
  else a.date ≤ b.date

/-- Effective size of the multiprocessing pool: n_workers defaults to
min(n_cores, 10) when None and is clamped down to n_cores when larger
(`if n_workers is None: ... elif n_workers > n_cores: ...`); nCores
stands for mp.cpu_count(), which is at least 1 on any host. -/
def effectiveWorkers (nCores : ℕ) (nWorkers : Option ℕ) : ℕ :=
  match nWorkers with
  | none => min nCores 10
  | some k => if k > nCores then nCores else k

/-- Embedding of pycnet.review.summarizeDetections: size the worker pool
from n_workers and the host core count - mp.Pool raises ValueError when
the process count is below 1, which the clamp does not prevent for
n_workers = 0 - then tally every threshold of the fixed ladder
(pool.starmap returns the tallies in argument order, so they are computed
sequentially here), concatenate, left-join with the recording effort on
area, site, station and date, and sort. -/
def summarizeDetections (nCores : ℕ) (t : PredTable) (nWorkers : Option ℕ) :
    Except Unit (List SummaryRow) :=
  if effectiveWorkers nCores nWorkers = 0 then .error () else
  match exceptMapList (fun th => tallyDetections t th) summarizeDetectionsThresholds with
  | .error e => .error e
  | .ok tallies =>
  match summarizeRecordingEffort t with
  | .error e => .error e
  | .ok eff =>
  let detRows := tallies.flatten
  let outRows := eff.flatMap (fun er =>
    let ms := detRows.filter (fun tr =>
      tr.area = er.area ∧ tr.site = er.site ∧ tr.stn = er.stn ∧ tr.date = er.date)
    if ms.isEmpty then
      [{ area := er.area, site := er.site, stn := er.stn, date := er.date,
         recDay := er.recDay, recWeek := er.recWeek, clips := er.clips,
         effort := er.effort, threshold := none, counts := none }]
    else ms.map (fun tr =>
      { area := er.area, site := er.site, stn := er.stn, date := er.date,
        recDay := er.recDay, recWeek := er.recWeek, clips := er.clips,
        effort := er.effort, threshold := some tr.threshold, counts := some tr.counts }))
  .ok (List.insertionSort (fun a b => summaryLeB a b = true) outRows)

/-! ## Review table builder (makeReviewTable) -/

/-- One accumulated apparent detection: a score row that cleared the
threshold of one review class. -/
structure Entry where
  row : ScoreRow
  cls : String
  dist : ℚ
  thresh : ℚ
  deriving DecidableEq

/-- Accumulation loop of makeReviewTable: for each class of the settings
in order, the apparent detections of that class, tagged with the class,
its score and its threshold. -/
def reviewEntries (t : PredTable) (settings : List (String × ℚ)) : List Entry :=
  settings.flatMap (fun p =>
    (getApparentDetections t p.1 p.2).map (fun r => ⟨r, p.1, r.score p.1, p.2⟩))

/-- One row of the review table produced by makeReviewTable, carrying the
output columns Filename, TOP1MATCH, TOP1DIST, THRESHOLD, PRIORITY, Area,
Site, Stn, Part, Rec_Day, Rec_Week, AUTO_TAG and the class scores. -/
structure ReviewRow where
  filename : String
  top1match : String
  top1dist : ℚ
  threshold : ℚ
  priority : ℕ
  area : String
  site : String
  stn : String
  part : String
  recDay : ℤ
  recWeek : ℤ
  autoTag : String
  classScores : List (String × ℚ)
  deriving DecidableEq

/-- Clip row joined to a filename by the left merge of makeReviewTable.
The clip table always covers every filename of the score table, and the
caller guarantees unique filenames, so find? retrieves the unique match. -/
def clipRowFor (cl : List ClipRow) (f : String) : ClipRow :=
  (cl.find? (fun c => c.filename = f)).getD ⟨f, "", "", "", "", 0, 0, 0⟩

/-- Build one merged review row from an accumulated entry: clip metadata
joined on Filename, PRIORITY from the position of the class in the
settings (list.index plus 1), AUTO_TAG still unset, and the class score
columns of the requested model version selected. -/
def mkReviewRow (revClasses : List String) (cl : List ClipRow) (cols : List String)
    (e : Entry) : ReviewRow :=
  let c := clipRowFor cl e.row.filename
  { filename := e.row.filename, top1match := e.cls, top1dist := e.dist,
    threshold := e.thresh, priority := revClasses.indexOf e.cls + 1,
    area := c.area, site := c.site, stn := c.stn, part := c.part,
    recDay := c.recDay, recWeek := c.recWeek, autoTag := "",
    classScores := cols.map (fun cc => (cc, e.row.score cc)) }

/-- Sort relation of the first sort of makeReviewTable: by Filename, then
PRIORITY, ascending. -/
def rowLeFnPr (a b : ReviewRow) : Prop :=
  sLt a.filename b.filename ∨ (a.filename = b.filename ∧ a.priority ≤ b.priority)

instance : DecidableRel rowLeFnPr := fun a b => by unfold rowLeFnPr; infer_instance

/-- Sort relation of the final sort of makeReviewTable: by TOP1MATCH,
then Filename, ascending. -/
def rowLeTmFn (a b : ReviewRow) : Prop :=
  sLt a.top1match b.top1match ∨ (a.top1match = b.top1match ∧ sLe a.filename b.filename)

instance : DecidableRel rowLeTmFn := fun a b => by unfold rowLeTmFn; infer_instance

/-- Embedding of drop_duplicates(subset="Filename", keep="first"). -/
def dedupByFilename (seen : List String) : List ReviewRow → List ReviewRow
  | [] => []
  | r :: rest =>
    if r.filename ∈ seen then dedupByFilename seen rest
    else r :: dedupByFilename (r.filename :: seen) rest

/-- AUTO_TAG of one filename: the distinct TOP1MATCH values of its rows,
sorted, joined with a plus sign, as the groupby aggregation of
makeReviewTable computes. -/
def autoTagString (rows : List ReviewRow) (f : String) : String :=
  String.intercalate "+"
    (sortDedup ((rows.filter (fun r => r.filename = f)).map (fun r => r.top1match)))

/-- Accumulated entries merged with clip metadata, with TOP1MATCH,
TOP1DIST, THRESHOLD and PRIORITY assigned (the state of review_df after
the PRIORITY assignment in makeReviewTable). -/
def mergedRows (classNames : List String) (t : PredTable)
    (settings : List (String × ℚ)) (cl : List ClipRow) : List ReviewRow :=
  (reviewEntries t settings).map (mkReviewRow (settings.map Prod.fst) cl classNames)

/-- Merged rows after the first sort of makeReviewTable, by Filename then
PRIORITY. -/
def sortedRows (classNames : List String) (t : PredTable)
    (settings : List (String × ℚ)) (cl : List ClipRow) : List ReviewRow :=
  List.insertionSort rowLeFnPr (mergedRows classNames t settings cl)

/-- Sorted rows with the AUTO_TAG column merged in. -/
def taggedRows (classNames : List String) (t : PredTable)
    (settings : List (String × ℚ)) (cl : List ClipRow) : List ReviewRow :=
  (sortedRows classNames t settings cl).map (fun r =>
    { r with autoTag := autoTagString (sortedRows classNames t settings cl) r.filename })

/-- Embedding of pycnet.review.makeReviewTable.  classNames is the class
list of the model version (v4_class_names or v5_class_names in the
source) used for the output column selection; settings is the ordered
review criteria dict.  The clip table is built first (raising on an
empty table or a malformed name); with no detections the empty table is
returned untouched; a clip filename occurring twice in the score table
makes the left merge grow the row count and the subsequent column
assignment raise, and a class name missing from the score columns makes
the final column selection raise, both embedded as the error case. -/
def makeReviewTable (classNames : List String) (t : PredTable)
    (settings : List (String × ℚ)) : Except Unit (List ReviewRow) :=
  match buildClipDataFrame t with
  | .error e => .error e
  | .ok cl =>
    if (reviewEntries t settings).isEmpty then .ok []
    else if (reviewEntries t settings).any (fun e =>
        2 ≤ (t.rows.filter (fun r => r.filename = e.row.filename)).length) then .error ()
    else if ¬ classNames.all (fun c => c ∈ t.classCols) then .error ()
    else .ok (List.insertionSort rowLeTmFn
      (dedupByFilename [] (taggedRows classNames t settings cl)))

/-! ## Kaleidoscope export offsets (getReadableOffset, makeKscopeReviewTable) -/

/-- Embedding of pycnet.review.getReadableOffset: the timestamp
datetime(2000, 1, 1) plus offset seconds, rendered with strftime format
%H:%M:%S when offset is at least 3600 and %M:%S otherwise.  The strftime
fields are the clock fields of that timestamp: seconds-of-day is the
offset modulo 86400 (timedelta borrows whole days, which emod
reproduces), the hour field divides it by 3600, and so on. -/
def getReadableOffset (offset : ℤ) : String :=
  let secOfDay := offset % 86400
  let hh := (secOfDay / 3600).toNat
  let mi := ((secOfDay % 3600) / 60).toNat
  let ss := (secOfDay % 60).toNat
  if 3600 ≤ offset then pad2 hh ++ ":" ++ pad2 mi ++ ":" ++ pad2 ss
  else pad2 mi ++ ":" ++ pad2 ss

/-- OFFSET computation of makeKscopeReviewTable: 12 * (int(Part) - 1)
seconds into the source file. -/
def kscopeOffset (partStr : String) : ℤ := 12 * ((pyInt partStr : ℤ) - 1)

/-- The OFFSET and OFFSET_MMSS columns of makeKscopeReviewTable, computed
rowwise from the Part strings of the review rows. -/
def makeKscopeOffsetCols (parts : List String) : List (ℤ × String) :=
  parts.map (fun p => (kscopeOffset p, getReadableOffset (kscopeOffset p)))

/-! ## Predicates used to state the review-table claims -/

/-- Decide whether the clip named f clears the threshold of the review
criteria pair p in table t: the class is a class column, the threshold is
in the valid interval, and the score of the row of f reaches it. -/
def clearsB (t : PredTable) (f : String) (p : String × ℚ) : Bool :=
  decide (p.1 ∈ t.classCols) && decide (0 < p.2) && decide (p.2 ≤ 1) &&
    t.rows.any (fun r => decide (r.filename = f) && decide (p.2 ≤ r.score p.1))

/-- First pair of the settings whose threshold the clip named f clears. -/
def firstClear (t : PredTable) (f : String) : List (String × ℚ) → Option (String × ℚ)
  | [] => none
  | p :: rest => if clearsB t f p then some p else firstClear t f rest

/-- Classes of the settings whose thresholds the clip named f clears, in
settings order. -/
def clearedClasses (t : PredTable) (f : String) (settings : List (String × ℚ)) :
    List String :=
  (settings.filter (clearsB t f)).map Prod.fst

/-! ## Helper lemmas -/

theorem mem_firstDedupAux {α : Type} [DecidableEq α] :
    ∀ (fuel : ℕ) (l : List α), l.length ≤ fuel →
      ∀ x, (x ∈ firstDedupAux fuel l ↔ x ∈ l) := by
  intro fuel
  induction fuel with
  | zero =>
    intro l hl x
    have hnil : l = [] := List.length_eq_zero.1 (Nat.le_zero.1 hl)
    subst hnil
    simp [firstDedupAux]
  | succ n ih =>
    intro l hl x
    cases l with
    | nil => simp [firstDedupAux]
    | cons a t =>
      simp only [firstDedupAux, List.mem_cons]
      have hlen : (t.filter (fun y => y ≠ a)).length ≤ n :=
        le_trans (List.length_filter_le _ _) (by simpa using hl)
      rw [ih _ hlen x]
      constructor
      · rintro (h | h)
        · exact Or.inl h
        · exact Or.inr (List.mem_of_mem_filter h)
      · rintro (h | h)
        · exact Or.inl h
        · by_cases hxa : x = a
          · exact Or.inl hxa
          · exact Or.inr (List.mem_filter.2 ⟨h, by simpa using hxa⟩)

theorem mem_firstDedup {α : Type} [DecidableEq α] (l : List α) (x : α) :
    x ∈ firstDedup l ↔ x ∈ l :=
  mem_firstDedupAux l.length l (le_refl _) x

theorem nodup_firstDedupAux {α : Type} [DecidableEq α] :
    ∀ (fuel : ℕ) (l : List α), l.length ≤ fuel → (firstDedupAux fuel l).Nodup := by
  intro fuel
  induction fuel with
  | zero =>
    intro l hl
    have hnil : l = [] := List.length_eq_zero.1 (Nat.le_zero.1 hl)
    subst hnil
    simp [firstDedupAux]
  | succ n ih =>
    intro l hl
    cases l with
    | nil => simp [firstDedupAux]
    | cons a t =>
      have hlen : (t.filter (fun y => y ≠ a)).length ≤ n :=
        le_trans (List.length_filter_le _ _) (by simpa using hl)
      refine List.nodup_cons.2 ⟨?_, ih _ hlen⟩
      intro hmem
      have h2 := List.of_mem_filter ((mem_firstDedupAux n _ hlen a).1 hmem)
      simp at h2

theorem nodup_firstDedup {α : Type} [DecidableEq α] (l : List α) :
    (firstDedup l).Nodup :=
  nodup_firstDedupAux l.length l (le_refl _)

theorem exceptMapList_ok_mem {α β : Type} (f : α → Except Unit β) :
    ∀ (l : List α) (res : List β), exceptMapList f l = .ok res →
      ∀ x ∈ res, ∃ a ∈ l, f a = .ok x := by
  intro l
  induction l with
  | nil =>
    intro res h x hx
    unfold exceptMapList at h
    cases h
    cases hx
  | cons a tl ih =>
    intro res h x hx
    unfold exceptMapList at h
    cases hfa : f a with
    | error e => rw [hfa] at h; cases h
    | ok b =>
      rw [hfa] at h
      cases hrest : exceptMapList f tl with
      | error e => rw [hrest] at h; cases h
      | ok bs =>
        rw [hrest] at h
        cases h
        rcases List.mem_cons.1 hx with h1 | h1
        · subst h1; exact ⟨a, List.mem_cons_self a tl, hfa⟩
        · obtain ⟨a2, ha2, hfa2⟩ := ih bs hrest x h1
          exact ⟨a2, List.mem_cons_of_mem a ha2, hfa2⟩

/-- Lookup in an association list built by mapping a function over keys. -/
theorem lookup_map_self {β : Type} (l : List String) (f : String → β) (c : String)
    (hc : c ∈ l) : (l.map (fun x => (x, f x))).lookup c = some (f c) := by
  induction l with
  | nil => cases hc
  | cons a t ih =>
    simp only [List.map_cons, List.lookup_cons]
    by_cases hca : c = a
    · subst hca; simp
    · have : (c == a) = false := beq_false_of_ne hca
      rw [this]
      exact ih (List.mem_cons.1 hc |>.resolve_left hca)

/-- Membership characterization of getApparentDetections. -/
theorem mem_getApparentDetections (t : PredTable) (c : String) (th : ℚ) (r : ScoreRow) :
    r ∈ getApparentDetections t c th ↔
      c ∈ t.classCols ∧ 0 < th ∧ th ≤ 1 ∧ r ∈ t.rows ∧ th ≤ r.score c := by
  unfold getApparentDetections
  by_cases h1 : c ∈ t.classCols
  · rw [if_pos h1]
    by_cases h2 : 0 < th ∧ th ≤ 1
    · rw [if_pos h2, List.mem_filter]
      simp only [decide_eq_true_eq]
      tauto
    · rw [if_neg h2]
      simp only [List.not_mem_nil, false_iff]
      tauto
  · rw [if_neg h1]
    simp only [List.not_mem_nil, false_iff]
    tauto

/-! ## Claim C10 -/

/-- C10: getApparentDetections returns an empty table - never an error and
never any rows - whenever the requested class code is not among the class
columns or the threshold lies outside the half-open interval (0, 1]; when
both preconditions hold it returns exactly the rows whose score for that
class meets or exceeds the threshold. -/
theorem getApparentDetections_guards (t : PredTable) (c : String) (th : ℚ) :
    ((c ∉ t.classCols ∨ ¬(0 < th ∧ th ≤ 1)) → getApparentDetections t c th = []) ∧
    (c ∈ t.classCols → 0 < th → th ≤ 1 →
      ∀ r : ScoreRow, r ∈ getApparentDetections t c th ↔ r ∈ t.rows ∧ th ≤ r.score c) := by
  constructor
  · intro h
    unfold getApparentDetections
    rcases h with h | h
    · rw [if_neg h]
    · by_cases hc : c ∈ t.classCols
      · rw [if_pos hc, if_neg h]
      · rw [if_neg hc]
  · intro h1 h2 h3 r
    rw [mem_getApparentDetections]
    tauto

/-- Witness for getApparentDetections_guards at a concrete one-row table:
an unknown class yields the empty table, a known class with a valid
threshold yields the qualifying row. -/
theorem getApparentDetections_guards_witness :
    getApparentDetections ⟨["A"], [⟨"f.png", [("A", 1/2)]⟩]⟩ "B" (1/2) = [] ∧
    ((⟨"f.png", [("A", 1/2)]⟩ : ScoreRow) ∈
      getApparentDetections ⟨["A"], [⟨"f.png", [("A", 1/2)]⟩]⟩ "A" (1/2)) := by
  constructor
  · exact (getApparentDetections_guards ⟨["A"], [⟨"f.png", [("A", 1/2)]⟩]⟩ "B" (1/2)).1
      (Or.inl (by decide))
  · exact ((getApparentDetections_guards ⟨["A"], [⟨"f.png", [("A", 1/2)]⟩]⟩ "A" (1/2)).2
      (by decide) (by norm_num) (by norm_num) ⟨"f.png", [("A", 1/2)]⟩).2
      ⟨List.mem_singleton.2 rfl, le_of_eq (by rfl)⟩

/-! ## Claim C3 -/

/-- C3 (code bug): a clip whose source stem has no match in the inventory
does not make getSourceFolders return nothing: the left join keeps the
clip with NaN FOLDER and IN_FILE, the row count is unchanged, and a table
containing a placeholder row is returned.  This contradicts the claim and
the docstring of the function, which promise a hard failure whenever a
source file cannot be found. -/
theorem getSourceFolders_missing_source_returns_table :
    getSourceFoldersFromSourceFiles ["ABC_20230101_120000_part_001.png"] [] ".wav" =
      .ok (some [{ folder := none, inFile := none, part := "part_001",
                   filename := "ABC_20230101_120000_part_001.png" }]) := by
  rfl

/-! ## Claim C9 -/

/-- C9 (code bug): getClipInfo degrades gracefully on a malformed clip
name (returning the all-None record instead of raising), but the batch
summarization does not: with one malformed name in the batch, the None
date reaches the min and date-subtraction steps of buildClipDataFrame,
which raise in Python (TypeError), so summarizeRecordingEffort aborts
instead of returning a table. -/
theorem summarizeRecordingEffort_malformed_aborts :
    getClipInfo "badname.png" = degradedClipInfo ∧
    summarizeRecordingEffort ⟨["CLS"],
      [⟨"badname.png", [("CLS", 1/10)]⟩,
       ⟨"COA_23459-C_20230316_081502_part_001.png", [("CLS", 1/5)]⟩]⟩ = .error () := by
  constructor
  · rfl
  · rfl

/-! ## Claim C4 -/

/-- C4 counterexample: the fixed threshold ladder built by
summarizeDetections contains the 19 values 0.05, 0.10, ..., 0.95 plus
0.98 and 0.99, which is 21 values in total, not 19 as claimed. -/
theorem summarizeDetectionsThresholds_card :
    summarizeDetectionsThresholds.length = 21 ∧
    ¬ summarizeDetectionsThresholds.length = 19 := by
  constructor
  · rfl
  · intro h
    rw [show summarizeDetectionsThresholds.length = 21 from rfl] at h
    cases h

/-- Every row of a tally at threshold th carries Threshold = th. -/
theorem tallyDetections_threshold_stamp (t : PredTable) (th : ℚ)
    (rows : List TallyRow) (h : tallyDetections t th = .ok rows) :
    ∀ r ∈ rows, r.threshold = th := by
  unfold tallyDetections at h
  cases hb : buildClipDataFrame t with
  | error e => rw [hb] at h; cases h
  | ok cl =>
    rw [hb] at h
    cases h
    intro r hr
    obtain ⟨k, hk, hkr⟩ := List.mem_map.1 hr
    cases hkr
    rfl

/-- A pool is creatable whenever the host has a core and n_workers is
not zero: the None default is min(n_cores, 10) and a positive request is
at worst clamped down to n_cores. -/
theorem effectiveWorkers_pos (c : ℕ) (n : Option ℕ) (hc : 1 ≤ c)
    (hn : n ≠ some 0) : 0 < effectiveWorkers c n := by
  match n with
  | none => simp only [effectiveWorkers]; omega
  | some k =>
    have hk : k ≠ 0 := fun h => hn (by rw [h])
    simp only [effectiveWorkers]
    split <;> omega

/-- C4 amended: summarizeDetections always tallies over the fixed ladder
0.05, 0.10, ..., 0.95 plus 0.98 and 0.99 - a ladder of exactly 21 values;
the ladder is a constant not influenced by any argument.  Whenever the
worker pool can be created (the host has at least one core and n_workers
is None or positive) the result depends on neither n_workers nor the
host's core count, and every threshold stamped on an output row comes
from the ladder; n_workers = 0 instead makes mp.Pool raise. -/
theorem summarizeDetections_fixed_ladder (t : PredTable) (c1 c2 : ℕ)
    (n1 n2 : Option ℕ) (hc1 : 1 ≤ c1) (hc2 : 1 ≤ c2)
    (hn1 : n1 ≠ some 0) (hn2 : n2 ≠ some 0) :
    summarizeDetectionsThresholds =
      [1/20, 1/10, 3/20, 1/5, 1/4, 3/10, 7/20, 2/5, 9/20, 1/2, 11/20,
       3/5, 13/20, 7/10, 3/4, 4/5, 17/20, 9/10, 19/20, 49/50, 99/100] ∧
    summarizeDetections c1 t n1 = summarizeDetections c2 t n2 ∧
    (∀ c : ℕ, summarizeDetections c t (some 0) = .error ()) ∧
    (∀ out, summarizeDetections c1 t n1 = .ok out → ∀ row ∈ out, ∀ q,
      row.threshold = some q → q ∈ summarizeDetectionsThresholds) := by
  have hladder : summarizeDetectionsThresholds =
      [1/20, 1/10, 3/20, 1/5, 1/4, 3/10, 7/20, 2/5, 9/20, 1/2, 11/20,
       3/5, 13/20, 7/10, 3/4, 4/5, 17/20, 9/10, 19/20, 49/50, 99/100] := by
    have hpy : pyRange 5 100 5 =
        [5, 10, 15, 20, 25, 30, 35, 40, 45, 50, 55, 60, 65, 70, 75, 80, 85, 90, 95] := by rfl
    show (((pyRange 5 100 5) ++ [98, 99]).map (fun x => (x : ℚ) / 100)) = _
    rw [hpy]
    norm_num
  have hne1 : ¬ effectiveWorkers c1 n1 = 0 := by
    have := effectiveWorkers_pos c1 n1 hc1 hn1; omega
  have hne2 : ¬ effectiveWorkers c2 n2 = 0 := by
    have := effectiveWorkers_pos c2 n2 hc2 hn2; omega
  refine ⟨hladder, ?_, ?_, ?_⟩
  · unfold summarizeDetections
    rw [if_neg hne1, if_neg hne2]
  · intro c
    unfold summarizeDetections
    rw [if_pos]
    simp only [effectiveWorkers]
    split <;> omega
  intro out hout row hrow q hq
  unfold summarizeDetections at hout
  rw [if_neg hne1] at hout
  cases htal : exceptMapList (fun th => tallyDetections t th) summarizeDetectionsThresholds with
  | error e => rw [htal] at hout; cases hout
  | ok tallies =>
    rw [htal] at hout
    cases heff : summarizeRecordingEffort t with
    | error e => rw [heff] at hout; cases hout
    | ok eff =>
      rw [heff] at hout
      cases hout
      have hmem : row ∈ eff.flatMap (fun er =>
          let ms := tallies.flatten.filter (fun tr =>
            tr.area = er.area ∧ tr.site = er.site ∧ tr.stn = er.stn ∧ tr.date = er.date)
          if ms.isEmpty then
            [{ area := er.area, site := er.site, stn := er.stn, date := er.date,
               recDay := er.recDay, recWeek := er.recWeek, clips := er.clips,
               effort := er.effort, threshold := none, counts := none }]
          else ms.map (fun tr =>
            { area := er.area, site := er.site, stn := er.stn, date := er.date,
              recDay := er.recDay, recWeek := er.recWeek, clips := er.clips,
              effort := er.effort, threshold := some tr.threshold, counts := some tr.counts })) :=
        (List.perm_insertionSort _ _).mem_iff.1 hrow
      obtain ⟨er, her, hin⟩ := List.mem_flatMap.1 hmem
      by_cases hempty : (tallies.flatten.filter (fun tr =>
          tr.area = er.area ∧ tr.site = er.site ∧ tr.stn = er.stn ∧ tr.date = er.date)).isEmpty
      · rw [if_pos hempty] at hin
        rcases List.mem_singleton.1 hin with h1
        rw [h1] at hq
        cases hq
      · rw [if_neg hempty] at hin
        obtain ⟨tr, htr, htr2⟩ := List.mem_map.1 hin
        have htrth : row.threshold = some tr.threshold := by rw [← htr2]
        rw [htrth] at hq
        have hqth : q = tr.threshold := by
          injection hq with h2; exact h2.symm
        have htrmem : tr ∈ tallies.flatten := List.mem_of_mem_filter htr
        obtain ⟨tl, htl, htrtl⟩ := List.mem_flatten.1 htrmem
        obtain ⟨th0, hth0, hok⟩ := exceptMapList_ok_mem _ _ tallies htal tl htl
        rw [hqth, tallyDetections_threshold_stamp t th0 tl hok tr htrtl]
        exact hth0

/-- Witness for summarizeDetections_fixed_ladder: at a concrete table on
an 8-core host the result with n_workers = 4 equals the result with the
None default. -/
theorem summarizeDetections_fixed_ladder_witness :
    summarizeDetections 8 ⟨["A"], [⟨"COA_23459-C_20230316_081502_part_001.png",
      [("A", ⟨1, 2, by decide, by decide⟩)]⟩]⟩ (some 4) =
    summarizeDetections 8 ⟨["A"], [⟨"COA_23459-C_20230316_081502_part_001.png",
      [("A", ⟨1, 2, by decide, by decide⟩)]⟩]⟩ none :=
  (summarizeDetections_fixed_ladder ⟨["A"], [⟨"COA_23459-C_20230316_081502_part_001.png",
      [("A", ⟨1, 2, by decide, by decide⟩)]⟩]⟩ 8 8 (some 4) none
    (by decide) (by decide) (by decide) (by decide)).2.1

/-! ## Claim C8 -/

/-- Format of getReadableOffset for nonnegative offsets: zero-padded
clock fields H:MM:SS when the offset is at least 3600, MM:SS otherwise. -/
theorem getReadableOffset_format (off : ℤ) (hnn : 0 ≤ off) :
    (3600 ≤ off → ∃ h m s : ℕ, h ≤ 23 ∧ m ≤ 59 ∧ s ≤ 59 ∧
      getReadableOffset off = pad2 h ++ ":" ++ pad2 m ++ ":" ++ pad2 s ∧
      (off < 86400 → (h : ℤ) = off / 3600) ∧
      (m : ℤ) = off % 3600 / 60 ∧ (s : ℤ) = off % 60) ∧
    (off < 3600 → ∃ m s : ℕ, m ≤ 59 ∧ s ≤ 59 ∧
      getReadableOffset off = pad2 m ++ ":" ++ pad2 s ∧
      (m : ℤ) = off / 60 ∧ (s : ℤ) = off % 60) := by
  constructor
  · intro h36
    unfold getReadableOffset
    rw [if_pos h36]
    exact ⟨(off % 86400 / 3600).toNat, (off % 86400 % 3600 / 60).toNat,
      (off % 86400 % 60).toNat, by omega, by omega, by omega, rfl,
      by omega, by omega, by omega⟩
  · intro hlt
    unfold getReadableOffset
    rw [if_neg (by omega)]
    exact ⟨(off % 86400 % 3600 / 60).toNat, (off % 86400 % 60).toNat,
      by omega, by omega, rfl, by omega, by omega⟩

/-- C8: for a clip with 1-indexed part number P the export OFFSET equals
12 * (P - 1) seconds, and OFFSET_MMSS is rendered as zero-padded clock
fields H:MM:SS exactly when OFFSET is at least 3600 and as MM:SS
otherwise; within the first day the H field is OFFSET divided by 3600,
and the M and S fields are always the minute and second parts of OFFSET. -/
theorem makeKscopeOffsetCols_offset_format (p : String) (P : ℕ)
    (hp : pyInt p = P) (hP : 1 ≤ P) :
    ∀ pr ∈ makeKscopeOffsetCols [p],
      pr.1 = 12 * ((P : ℤ) - 1) ∧
      (3600 ≤ pr.1 → ∃ h m s : ℕ, h ≤ 23 ∧ m ≤ 59 ∧ s ≤ 59 ∧
        pr.2 = pad2 h ++ ":" ++ pad2 m ++ ":" ++ pad2 s ∧
        (pr.1 < 86400 → (h : ℤ) = pr.1 / 3600) ∧
        (m : ℤ) = pr.1 % 3600 / 60 ∧ (s : ℤ) = pr.1 % 60) ∧
      (pr.1 < 3600 → ∃ m s : ℕ, m ≤ 59 ∧ s ≤ 59 ∧
        pr.2 = pad2 m ++ ":" ++ pad2 s ∧
        (m : ℤ) = pr.1 / 60 ∧ (s : ℤ) = pr.1 % 60) := by
  intro pr hpr
  simp only [makeKscopeOffsetCols, List.map_cons, List.map_nil, List.mem_singleton] at hpr
  subst hpr
  have hoffval : kscopeOffset p = 12 * ((P : ℤ) - 1) := by
    unfold kscopeOffset; rw [hp]
  have hP2 : (1 : ℤ) ≤ (P : ℤ) := by exact_mod_cast hP
  have hnn : 0 ≤ kscopeOffset p := by rw [hoffval]; omega
  exact ⟨hoffval, (getReadableOffset_format (kscopeOffset p) hnn).1,
    (getReadableOffset_format (kscopeOffset p) hnn).2⟩

/-- Witness for makeKscopeOffsetCols_offset_format: Part "004" yields
OFFSET 36 and OFFSET_MMSS "00:36". -/
theorem makeKscopeOffsetCols_offset_format_witness :
    ((36 : ℤ), "00:36") ∈ makeKscopeOffsetCols ["004"] ∧
    ((36 : ℤ), "00:36").1 = 12 * ((4 : ℤ) - 1) := by
  have hm : ((36 : ℤ), "00:36") ∈ makeKscopeOffsetCols ["004"] := by
    have h1 : kscopeOffset "004" = 36 := by decide
    have h2 : getReadableOffset 36 = "00:36" := by decide
    simp [makeKscopeOffsetCols, h1, h2]
  exact ⟨hm,
    (makeKscopeOffsetCols_offset_format "004" 4 (by decide) (by norm_num)
      ((36 : ℤ), "00:36") hm).1⟩

/-! ## Claim C6 -/

/-- Floor-division form of the ceiling of n / 7 for positive n. -/
theorem ceil_div_seven (n : ℤ) (hn : 1 ≤ n) : ((n - 1) / 7 + 1 : ℤ) = ⌈(n : ℚ) / 7⌉ := by
  symm
  rw [Int.ceil_eq_iff]
  have h1 : 7 * ((n - 1) / 7) ≤ n - 1 := by omega
  have h2 : n - 1 < 7 * ((n - 1) / 7) + 7 := by omega
  constructor
  · rw [lt_div_iff (by norm_num : (0 : ℚ) < 7)]
    push_cast
    have : (7 : ℚ) * (((n - 1) / 7 : ℤ) : ℚ) ≤ ((n : ℚ) - 1) := by exact_mod_cast h1
    linarith
  · rw [div_le_iff (by norm_num : (0 : ℚ) < 7)]
    push_cast
    have h3 : n ≤ 7 * ((n - 1) / 7) + 7 := by omega
    have : (n : ℚ) ≤ 7 * (((n - 1) / 7 : ℤ) : ℚ) + 7 := by exact_mod_cast h3
    linarith

/-- C6: in a successfully built clip table, every row has
Rec_Day = 1 + (Date - earliest Date in the batch), hence Rec_Day at least
1 and non-decreasing with Date, and Rec_Week = ceiling of Rec_Day / 7. -/
theorem clipRowsOf_dates (infos : List (String × ClipInfo)) :
    (clipRowsOf infos).map (fun c => c.date) = infos.map (fun q => q.2.date.getD 0) := by
  unfold clipRowsOf
  rw [List.map_map]
  rfl

/-- C6: in a successfully built clip table, every row has
Rec_Day = 1 + (Date - earliest Date in the batch), hence Rec_Day at least
1 and non-decreasing with Date, and Rec_Week = ceiling of Rec_Day / 7. -/
theorem buildClipDataFrame_recday_recweek (t : PredTable) (rows : List ClipRow)
    (h : buildClipDataFrame t = .ok rows) :
    ∀ r ∈ rows,
      r.recDay = r.date - minInt (rows.map (fun c => c.date)) + 1 ∧
      1 ≤ r.recDay ∧
      (∀ r2 ∈ rows, r.date ≤ r2.date → r.recDay ≤ r2.recDay) ∧
      r.recWeek = ⌈(r.recDay : ℚ) / 7⌉ := by
  unfold buildClipDataFrame at h
  split at h
  · cases h
  · split at h
    · cases h
      intro r hr
      set infos := t.rows.map (fun r => (r.filename, getClipInfo r.filename)) with hinfos
      have hmin : minInt ((clipRowsOf infos).map (fun c => c.date)) =
          minInt (infos.map (fun q => q.2.date.getD 0)) := by
        rw [clipRowsOf_dates]
      obtain ⟨p, hp, hpr⟩ := List.mem_map.1 hr
      subst hpr
      have hminle : minInt (infos.map (fun q => q.2.date.getD 0)) ≤ p.2.date.getD 0 :=
        minInt_le _ _ (List.mem_map_of_mem _ hp)
      refine ⟨?_, ?_, ?_, ?_⟩
      · rw [hmin]
      · show (1 : ℤ) ≤ p.2.date.getD 0 - minInt (infos.map (fun q => q.2.date.getD 0)) + 1
        omega
      · intro r2 hr2 hle
        obtain ⟨p2, hp2, hpr2⟩ := List.mem_map.1 hr2
        subst hpr2
        simp only at hle
        show p.2.date.getD 0 - minInt (infos.map (fun q => q.2.date.getD 0)) + 1 ≤
          p2.2.date.getD 0 - minInt (infos.map (fun q => q.2.date.getD 0)) + 1
        omega
      · show (p.2.date.getD 0 - minInt (infos.map (fun q => q.2.date.getD 0)) + 1 - 1) / 7 + 1 =
          ⌈((p.2.date.getD 0 - minInt (infos.map (fun q => q.2.date.getD 0)) + 1 : ℤ) : ℚ) / 7⌉
        exact ceil_div_seven _ (by omega)
    · cases h

/-- Concrete two-clip score table shared by several witnesses below. -/
def wTable : PredTable :=
  ⟨["A"],
   [⟨"COA_23459-C_20230316_081502_part_001.png", [("A", ⟨1, 2, by decide, by decide⟩)]⟩,
    ⟨"COA_23459-C_20230317_081502_part_004.png", [("A", ⟨1, 4, by decide, by decide⟩)]⟩]⟩

/-- Clip rows of wTable as built by buildClipDataFrame. -/
def wClipRows : List ClipRow :=
  [⟨"COA_23459-C_20230316_081502_part_001.png", "COA", "23459", "C", "001", 738595, 1, 1⟩,
   ⟨"COA_23459-C_20230317_081502_part_004.png", "COA", "23459", "C", "004", 738596, 2, 1⟩]

/-- Witness for buildClipDataFrame_recday_recweek at the first row of the
concrete two-clip batch. -/
theorem buildClipDataFrame_recday_recweek_witness :
    (⟨"COA_23459-C_20230316_081502_part_001.png", "COA", "23459", "C", "001",
        738595, 1, 1⟩ : ClipRow).recDay =
      (⟨"COA_23459-C_20230316_081502_part_001.png", "COA", "23459", "C", "001",
        738595, 1, 1⟩ : ClipRow).date - minInt (wClipRows.map (fun c => c.date)) + 1 ∧
    1 ≤ (⟨"COA_23459-C_20230316_081502_part_001.png", "COA", "23459", "C", "001",
        738595, 1, 1⟩ : ClipRow).recDay ∧
    (∀ r2 ∈ wClipRows,
      (⟨"COA_23459-C_20230316_081502_part_001.png", "COA", "23459", "C", "001",
        738595, 1, 1⟩ : ClipRow).date ≤ r2.date →
      (⟨"COA_23459-C_20230316_081502_part_001.png", "COA", "23459", "C", "001",
        738595, 1, 1⟩ : ClipRow).recDay ≤ r2.recDay) ∧
    (⟨"COA_23459-C_20230316_081502_part_001.png", "COA", "23459", "C", "001",
        738595, 1, 1⟩ : ClipRow).recWeek =
      ⌈((⟨"COA_23459-C_20230316_081502_part_001.png", "COA", "23459", "C", "001",
        738595, 1, 1⟩ : ClipRow).recDay : ℚ) / 7⌉ :=
  buildClipDataFrame_recday_recweek wTable wClipRows (by rfl) _
    (List.mem_cons_self _ _)

/-! ## Claim C5 -/

/-- Summing a filtered 0-1 indicator counts the elements satisfying the
conjunction of the two predicates. -/
theorem sum_indicator_filter {α : Type} (P Q : α → Prop) [DecidablePred P]
    [DecidablePred Q] (l : List α) :
    ((l.filter (fun x => decide (P x))).map (fun x => if Q x then (1 : ℕ) else 0)).sum =
      (l.filter (fun x => decide (P x ∧ Q x))).length := by
  induction l with
  | nil => rfl
  | cons a t ih =>
    by_cases hp : P a <;> by_cases hq : Q a <;>
      simp [List.filter_cons, hp, hq, ih, Nat.add_comm]

/-- C5: every row of the tally at threshold th carries Threshold = th; the
group keys are exactly the distinct (Area, Site, Stn, Date) keys of the
clip table, each occurring once; and for each class column the stored
count equals the number of clips of that group whose score for the class
is at least th. -/
theorem tallyDetections_counts (t : PredTable) (th : ℚ) (rows : List TallyRow)
    (cl : List ClipRow) (hcl : buildClipDataFrame t = .ok cl)
    (h : tallyDetections t th = .ok rows) :
    (rows.map (fun r => (r.area, r.site, r.stn, r.date))).Nodup ∧
    (∀ k, k ∈ rows.map (fun r => (r.area, r.site, r.stn, r.date)) ↔ k ∈ cl.map groupKey) ∧
    ∀ r ∈ rows, r.threshold = th ∧ ∀ c ∈ t.classCols,
      r.counts.lookup c = some
        (((t.rows.zip cl).filter (fun pr =>
          groupKey pr.2 = (r.area, r.site, r.stn, r.date) ∧ th ≤ pr.1.score c)).length) := by
  unfold tallyDetections at h
  rw [hcl] at h
  cases h
  have hmaps : ((firstDedup (cl.map groupKey)).map (fun k =>
      ({ area := k.1, site := k.2.1, stn := k.2.2.1, date := k.2.2.2,
         threshold := th,
         counts := t.classCols.map (fun c =>
           (c, (((t.rows.zip cl).filter (fun pr => groupKey pr.2 = k)).map
             (fun pr => if th ≤ pr.1.score c then (1 : ℕ) else 0)).sum)) } : TallyRow))).map
      (fun r => (r.area, r.site, r.stn, r.date)) = firstDedup (cl.map groupKey) := by
    rw [List.map_map]
    exact List.map_id _
  refine ⟨?_, ?_, ?_⟩
  · rw [hmaps]
    exact nodup_firstDedup _
  · intro k
    rw [hmaps, mem_firstDedup]
  · intro r hr
    obtain ⟨k, hk, hkr⟩ := List.mem_map.1 hr
    have hth : r.threshold = th := by rw [← hkr]
    have hkey : (r.area, r.site, r.stn, r.date) = k := by rw [← hkr]
    have hcounts : r.counts = t.classCols.map (fun c =>
        (c, (((t.rows.zip cl).filter (fun pr => groupKey pr.2 = k)).map
          (fun pr => if th ≤ pr.1.score c then (1 : ℕ) else 0)).sum)) := by
      rw [← hkr]
    refine ⟨hth, ?_⟩
    intro c hc
    rw [hcounts, hkey, lookup_map_self t.classCols _ c hc]
    congr 1
    exact sum_indicator_filter (fun pr => groupKey pr.2 = k)
      (fun pr => th ≤ pr.1.score c) (t.rows.zip cl)

/-! ## Claim C1 -/

/-- Rows kept by the Filename dedup come from the input, avoid the seen
set, and carry pairwise distinct filenames. -/
theorem dedupByFilename_spec (l : List ReviewRow) :
    ∀ seen, (∀ r ∈ dedupByFilename seen l, r ∈ l ∧ r.filename ∉ seen) ∧
      ((dedupByFilename seen l).map (fun r => r.filename)).Nodup := by
  induction l with
  | nil => intro seen; simp [dedupByFilename]
  | cons a tl ih =>
    intro seen
    by_cases h : a.filename ∈ seen
    · simp only [dedupByFilename, if_pos h]
      obtain ⟨h1, h2⟩ := ih seen
      exact ⟨fun r hr => ⟨List.mem_cons_of_mem a (h1 r hr).1, (h1 r hr).2⟩, h2⟩
    · simp only [dedupByFilename, if_neg h]
      obtain ⟨h1, h2⟩ := ih (a.filename :: seen)
      constructor
      · intro r hr
        rcases List.mem_cons.1 hr with h3 | h3
        · exact ⟨h3 ▸ List.mem_cons_self a tl, h3 ▸ h⟩
        · obtain ⟨hm, hs⟩ := h1 r h3
          exact ⟨List.mem_cons_of_mem a hm, fun hc => hs (List.mem_cons_of_mem _ hc)⟩
      · simp only [List.map_cons, List.nodup_cons]
        refine ⟨?_, h2⟩
        intro hc
        obtain ⟨r, hr, hfn⟩ := List.mem_map.1 hc
        exact (h1 r hr).2 (hfn ▸ List.mem_cons_self _ _)

/-- C1: the table returned by makeReviewTable has exactly one row per
distinct Filename appearing in it; no Filename occurs in two rows. -/
theorem makeReviewTable_unique_filenames (classNames : List String) (t : PredTable)
    (settings : List (String × ℚ)) (out : List ReviewRow)
    (h : makeReviewTable classNames t settings = .ok out) :
    (out.map (fun r => r.filename)).Nodup := by
  unfold makeReviewTable at h
  split at h
  · cases h
  · next cl heq =>
    split at h
    · cases h
      simp
    · split at h
      · cases h
      · split at h
        · cases h
        · cases h
          have hperm := List.perm_insertionSort rowLeTmFn
            (dedupByFilename [] (taggedRows classNames t settings cl))
          have hnd := (dedupByFilename_spec (taggedRows classNames t settings cl) []).2
          exact ((hperm.map (fun r => r.filename)).nodup_iff).2 hnd

/-- Review table of wTable for the single criterion A at threshold 1/4. -/
def wReviewOut : List ReviewRow :=
  [⟨"COA_23459-C_20230316_081502_part_001.png", "A", ⟨1, 2, by decide, by decide⟩,
    ⟨1, 4, by decide, by decide⟩, 1, "COA", "23459", "C", "001", 1, 1, "A",
    [("A", ⟨1, 2, by decide, by decide⟩)]⟩,
   ⟨"COA_23459-C_20230317_081502_part_004.png", "A", ⟨1, 4, by decide, by decide⟩,
    ⟨1, 4, by decide, by decide⟩, 1, "COA", "23459", "C", "004", 2, 1, "A",
    [("A", ⟨1, 4, by decide, by decide⟩)]⟩]

/-- Witness for makeReviewTable_unique_filenames on the concrete two-clip
table: the produced review table has pairwise distinct filenames. -/
theorem makeReviewTable_unique_filenames_witness :
    (wReviewOut.map (fun r => r.filename)).Nodup :=
  makeReviewTable_unique_filenames ["A"] wTable [("A", ⟨1, 4, by decide, by decide⟩)]
    wReviewOut (by rfl)

/-- Witness for tallyDetections_counts at the concrete two-clip table and
threshold 3/10. -/
theorem tallyDetections_counts_witness :
    ((([⟨"COA", "23459", "C", 738595, ⟨3, 10, by decide, by decide⟩, [("A", 1)]⟩,
        ⟨"COA", "23459", "C", 738596, ⟨3, 10, by decide, by decide⟩, [("A", 0)]⟩] :
       List TallyRow)).map (fun r => (r.area, r.site, r.stn, r.date))).Nodup ∧
    (∀ k, k ∈ (([⟨"COA", "23459", "C", 738595, ⟨3, 10, by decide, by decide⟩, [("A", 1)]⟩,
        ⟨"COA", "23459", "C", 738596, ⟨3, 10, by decide, by decide⟩, [("A", 0)]⟩] :
       List TallyRow)).map (fun r => (r.area, r.site, r.stn, r.date)) ↔
      k ∈ wClipRows.map groupKey) ∧
    ∀ r ∈ ([⟨"COA", "23459", "C", 738595, ⟨3, 10, by decide, by decide⟩, [("A", 1)]⟩,
        ⟨"COA", "23459", "C", 738596, ⟨3, 10, by decide, by decide⟩, [("A", 0)]⟩] :
       List TallyRow), r.threshold = ⟨3, 10, by decide, by decide⟩ ∧
      ∀ c ∈ wTable.classCols,
        r.counts.lookup c = some
          (((wTable.rows.zip wClipRows).filter (fun pr =>
            groupKey pr.2 = (r.area, r.site, r.stn, r.date) ∧
              (⟨3, 10, by decide, by decide⟩ : ℚ) ≤ pr.1.score c)).length) :=
  tallyDetections_counts wTable ⟨3, 10, by decide, by decide⟩ _ wClipRows (by rfl) (by rfl)

/-! ## Claim C7 -/

/-- The Python dict constructor is the identity on a pair list whose keys
are pairwise distinct. -/
theorem pyDict_go_eq (l : List (String × ℚ)) :
    ∀ acc, ((acc ++ l).map Prod.fst).Nodup →
      List.foldl pyDictInsert acc l = acc ++ l := by
  induction l with
  | nil => intro acc _; simp
  | cons kv tl ih =>
    intro acc h
    have hnotin : acc.any (fun p => p.1 = kv.1) ≠ true := by
      intro hany
      obtain ⟨p, hp, hpe⟩ := List.any_eq_true.1 hany
      simp only [decide_eq_true_eq] at hpe
      rw [List.map_append, List.map_cons, List.nodup_append] at h
      have h1 : kv.1 ∈ acc.map Prod.fst := List.mem_map.2 ⟨p, hp, hpe⟩
      exact h.2.2 h1 (List.mem_cons_self _ _)
    have hins : pyDictInsert acc kv = acc ++ [kv] := by
      unfold pyDictInsert
      rw [if_neg hnotin]
    have hnd2 : (((acc ++ [kv]) ++ tl).map Prod.fst).Nodup := by
      rw [List.append_assoc, List.singleton_append]
      exact h
    calc List.foldl pyDictInsert acc (kv :: tl)
        = List.foldl pyDictInsert (acc ++ [kv]) tl := by rw [List.foldl_cons, hins]
      _ = (acc ++ [kv]) ++ tl := ih (acc ++ [kv]) hnd2
      _ = acc ++ kv :: tl := by rw [List.append_assoc, List.singleton_append]

theorem pyDict_eq_self (l : List (String × ℚ)) (h : (l.map Prod.fst).Nodup) :
    pyDict l = l := by
  have := pyDict_go_eq l [] (by simpa using h)
  simpa [pyDict] using this

/-- Lookup of a key in an association list with pairwise distinct keys
retrieves the value it is paired with. -/
theorem lookup_of_mem_nodup (l : List (String × ℚ)) (k : String) (v : ℚ)
    (hnd : (l.map Prod.fst).Nodup) (hm : (k, v) ∈ l) : l.lookup k = some v := by
  induction l with
  | nil => cases hm
  | cons p tl ih =>
    rcases List.mem_cons.1 hm with h | h
    · rw [← h]
      simp [List.lookup_cons]
    · have hk : k ≠ p.1 := by
        intro he
        have hmem : k ∈ tl.map Prod.fst := List.mem_map.2 ⟨(k, v), h, rfl⟩
        rw [List.map_cons] at hnd
        exact (List.nodup_cons.1 hnd).1 (he ▸ hmem)
      have hbeq : (k == p.1) = false := beq_false_of_ne hk
      rcases p with ⟨p1, p2⟩
      simp only [List.lookup_cons, hbeq]
      exact ih (List.nodup_cons.1 (by rw [List.map_cons] at hnd; exact hnd)).2 h

/-- C7 counterexample: with the class token X occurring in two groups, the
dict built by parseStrReviewCriteria keeps only the value of the last
group, so the token of group 0 is not mapped to threshold token 0: for
"X 0.5 X 0.9" the token X belongs to group 0 whose threshold token is
0.5, yet the returned mapping sends X to 0.9. -/
theorem parseStrReviewCriteria_repeated_token :
    parseStrReviewCriteria "X 0.5 X 0.9" =
      some [("X", threshVal ('0' :: '.' :: '9' :: []))] ∧
    critClassGroups "X 0.5 X 0.9" = [['X', ' '], [' ', 'X', ' ']] ∧
    critThresholds "X 0.5 X 0.9" = [['0', '.', '5'], ['0', '.', '9']] ∧
    wordTokensAux [] ['X', ' '] = [['X']] ∧
    threshVal ('0' :: '.' :: '9' :: []) ≠ threshVal ('0' :: '.' :: '5' :: []) := by
  refine ⟨by rfl, by rfl, by rfl, by rfl, ?_⟩
  have h9 : threshVal ('0' :: '.' :: '9' :: []) = 9 / 10 := by
    have hn : natOfDigits ['9'] = 9 := by decide
    show ((natOfDigits ['9'] : ℚ)) / 10 ^ (['9'] : List Char).length = 9 / 10
    rw [hn]
    norm_num
  have h5 : threshVal ('0' :: '.' :: '5' :: []) = 5 / 10 := by
    have hn : natOfDigits ['5'] = 5 := by decide
    show ((natOfDigits ['5'] : ℚ)) / 10 ^ (['5'] : List Char).length = 5 / 10
    rw [hn]
    norm_num
  rw [h9, h5]
  norm_num

/-- C7 amended: parseStrReviewCriteria returns nothing exactly when the
number of class-token groups differs from the number of threshold tokens;
on success, provided no class token repeats, every class token of the
i-th group is mapped to the value of the i-th threshold token (a repeated
token keeps the value of its last group, by Python dict semantics). -/
theorem parseStrReviewCriteria_grammar (s : String) :
    (parseStrReviewCriteria s = none ↔
      (critClassGroups s).length ≠ (critThresholds s).length) ∧
    (∀ res, parseStrReviewCriteria s = some res →
      ((critPairs s).map Prod.fst).Nodup →
      res = critPairs s ∧
      ∀ g th0, (g, th0) ∈ (critClassGroups s).zip (critThresholds s) →
        ∀ tok ∈ wordTokensAux [] g,
          res.lookup (String.mk tok) = some (threshVal th0)) := by
  constructor
  · unfold parseStrReviewCriteria
    by_cases hlen : (critClassGroups s).length ≠ (critThresholds s).length
    · rw [if_pos hlen]
      simp [hlen]
    · rw [if_neg hlen]
      simp [hlen]
  · intro res hres hnd
    unfold parseStrReviewCriteria at hres
    split at hres
    · cases hres
    · have hres2 : res = pyDict (critPairs s) := by
        injection hres with h2
        exact h2.symm
      have heq : res = critPairs s := by
        rw [hres2, pyDict_eq_self _ hnd]
      refine ⟨heq, ?_⟩
      intro g th0 hgth tok htok
      rw [heq]
      apply lookup_of_mem_nodup _ _ _ hnd
      unfold critPairs
      rw [List.mem_flatMap]
      exact ⟨(g, th0), hgth, List.mem_map.2 ⟨tok, htok, rfl⟩⟩

/-- Witness for parseStrReviewCriteria_grammar: the mapping for
"X Y 0.5 Z 0.9" sends X and Y to 0.5 and Z to 0.9, and the string
"X Y 0.5 Z" with a trailing class and no threshold parses to nothing. -/
theorem parseStrReviewCriteria_grammar_witness :
    (pyDict (critPairs "X Y 0.5 Z 0.9")).lookup "X" =
      some (threshVal ('0' :: '.' :: '5' :: [])) ∧
    (pyDict (critPairs "X Y 0.5 Z 0.9")).lookup "Y" =
      some (threshVal ('0' :: '.' :: '5' :: [])) ∧
    (pyDict (critPairs "X Y 0.5 Z 0.9")).lookup "Z" =
      some (threshVal ('0' :: '.' :: '9' :: [])) ∧
    parseStrReviewCriteria "X Y 0.5 Z" = none := by
  have h := (parseStrReviewCriteria_grammar "X Y 0.5 Z 0.9").2
    (pyDict (critPairs "X Y 0.5 Z 0.9")) (by rfl) (by decide)
  refine ⟨?_, ?_, ?_, ?_⟩
  · exact h.2 ['X', ' ', 'Y', ' '] ['0', '.', '5'] (by decide) ['X'] (by decide)
  · exact h.2 ['X', ' ', 'Y', ' '] ['0', '.', '5'] (by decide) ['Y'] (by decide)
  · exact h.2 [' ', 'Z', ' '] ['0', '.', '9'] (by decide) ['Z'] (by decide)
  · exact (parseStrReviewCriteria_grammar "X Y 0.5 Z").1.2 (by decide)

/-! ## Claim C2 -/

/-- Characterization of the accumulated review entries. -/
theorem mem_reviewEntries (t : PredTable) (s : List (String × ℚ)) (e : Entry) :
    e ∈ reviewEntries t s ↔
      ∃ p ∈ s, ∃ r ∈ t.rows, p.1 ∈ t.classCols ∧ 0 < p.2 ∧ p.2 ≤ 1 ∧
        p.2 ≤ r.score p.1 ∧ e = ⟨r, p.1, r.score p.1, p.2⟩ := by
  unfold reviewEntries
  rw [List.mem_flatMap]
  constructor
  · rintro ⟨p, hp, he⟩
    obtain ⟨r, hr, hre⟩ := List.mem_map.1 he
    obtain ⟨hc, h0, h1, hmem, hsc⟩ := (mem_getApparentDetections t p.1 p.2 r).1 hr
    exact ⟨p, hp, r, hmem, hc, h0, h1, hsc, hre.symm⟩
  · rintro ⟨p, hp, r, hr, hc, h0, h1, hsc, he⟩
    exact ⟨p, hp, List.mem_map.2
      ⟨r, (mem_getApparentDetections t p.1 p.2 r).2 ⟨hc, h0, h1, hr, hsc⟩, he.symm⟩⟩

/-- Unfolding of the clearing test. -/
theorem clearsB_iff (t : PredTable) (f : String) (p : String × ℚ) :
    clearsB t f p = true ↔
      p.1 ∈ t.classCols ∧ 0 < p.2 ∧ p.2 ≤ 1 ∧
        ∃ r ∈ t.rows, r.filename = f ∧ p.2 ≤ r.score p.1 := by
  unfold clearsB
  simp only [Bool.and_eq_true, decide_eq_true_eq, List.any_eq_true]
  tauto

/-- The pair found by firstClear is a clearing pair of the settings whose
class has the least index among all clearing pairs. -/
theorem firstClear_spec (t : PredTable) (f : String) :
    ∀ (s : List (String × ℚ)) (p : String × ℚ),
      (s.map Prod.fst).Nodup → firstClear t f s = some p →
      p ∈ s ∧ clearsB t f p = true ∧
      ∀ q ∈ s, clearsB t f q = true →
        (s.map Prod.fst).indexOf p.1 ≤ (s.map Prod.fst).indexOf q.1 := by
  intro s
  induction s with
  | nil => intro p _ h; cases h
  | cons x rest ih =>
    intro p hnd h
    rw [firstClear] at h
    by_cases hx : clearsB t f x
    · rw [if_pos hx] at h
      injection h with h2
      subst h2
      refine ⟨List.mem_cons_self _ _, hx, ?_⟩
      intro q hq hcq
      simp only [List.map_cons]
      rw [List.indexOf_cons_self]
      exact Nat.zero_le _
    · rw [if_neg hx] at h
      rw [List.map_cons] at hnd
      obtain ⟨hxk, hnd2⟩ := List.nodup_cons.1 hnd
      obtain ⟨hp, hcp, hmin⟩ := ih p hnd2 h
      have hpne : p.1 ≠ x.1 := by
        intro he
        exact hxk (he ▸ List.mem_map.2 ⟨p, hp, rfl⟩)
      refine ⟨List.mem_cons_of_mem _ hp, hcp, ?_⟩
      intro q hq hcq
      rcases List.mem_cons.1 hq with h1 | h1
      · subst h1
        exact absurd hcq (by simpa using hx)
      · have hqne : q.1 ≠ x.1 := by
          intro he
          exact hxk (he ▸ List.mem_map.2 ⟨q, h1, rfl⟩)
        simp only [List.map_cons]
        rw [List.indexOf_cons_ne _ (Ne.symm hpne), List.indexOf_cons_ne _ (Ne.symm hqne)]
        exact Nat.succ_le_succ (hmin q h1 hcq)

instance : IsTotal ReviewRow rowLeFnPr := ⟨by
  intro a b
  unfold rowLeFnPr
  by_cases hf : a.filename = b.filename
  · rcases Nat.le_total a.priority b.priority with h | h
    · exact Or.inl (Or.inr ⟨hf, h⟩)
    · exact Or.inr (Or.inr ⟨hf.symm, h⟩)
  · rcases sLt_connex hf with h | h
    · exact Or.inl (Or.inl h)
    · exact Or.inr (Or.inl h)⟩

instance : IsTrans ReviewRow rowLeFnPr := ⟨by
  intro a b c hab hbc
  unfold rowLeFnPr at *
  rcases hab with h1 | ⟨h1, h1p⟩
  · rcases hbc with h2 | ⟨h2, h2p⟩
    · exact Or.inl (sLt_trans h1 h2)
    · exact Or.inl (h2 ▸ h1)
  · rcases hbc with h2 | ⟨h2, h2p⟩
    · exact Or.inl (h1 ▸ h2)
    · exact Or.inr ⟨h1.trans h2, le_trans h1p h2p⟩⟩

theorem rowLeFnPr_refl (r : ReviewRow) : rowLeFnPr r r := Or.inr ⟨rfl, le_refl _⟩

/-- A row kept by the dedup is least, in the Filename-PRIORITY order,
among the rows of the sorted input sharing its filename. -/
theorem dedupByFilename_min (l : List ReviewRow) (hs : l.Pairwise rowLeFnPr) :
    ∀ seen, ∀ r ∈ dedupByFilename seen l, ∀ r2 ∈ l, r2.filename = r.filename →
      rowLeFnPr r r2 := by
  induction l with
  | nil => intro seen r hr; cases hr
  | cons a tl ih =>
    intro seen r hr r2 hr2 hf
    obtain ⟨ha, htl⟩ := List.pairwise_cons.1 hs
    by_cases hmem : a.filename ∈ seen
    · simp only [dedupByFilename, if_pos hmem] at hr
      rcases List.mem_cons.1 hr2 with h2 | h2
      · exfalso
        have hnotin := ((dedupByFilename_spec tl seen).1 r hr).2
        rw [h2] at hf
        exact hnotin (hf ▸ hmem)
      · exact ih htl seen r hr r2 h2 hf
    · simp only [dedupByFilename, if_neg hmem] at hr
      rcases List.mem_cons.1 hr with h1 | h1
      · subst h1
        rcases List.mem_cons.1 hr2 with h2 | h2
        · subst h2; exact rowLeFnPr_refl _
        · exact ha r2 h2
      · rcases List.mem_cons.1 hr2 with h2 | h2
        · exfalso
          have hnotin := ((dedupByFilename_spec tl (a.filename :: seen)).1 r h1).2
          rw [h2] at hf
          exact hnotin (hf ▸ List.mem_cons_self _ _)
        · exact ih htl _ r h1 r2 h2 hf

/-- Every filename of the input survives the dedup. -/
theorem dedupByFilename_exists (l : List ReviewRow) :
    ∀ seen f, f ∉ seen → f ∈ l.map (fun r => r.filename) →
      ∃ r ∈ dedupByFilename seen l, r.filename = f := by
  induction l with
  | nil => intro seen f _ hf; cases hf
  | cons a tl ih =>
    intro seen f hfs hf
    by_cases hmema : a.filename ∈ seen
    · simp only [dedupByFilename, if_pos hmema]
      rcases List.mem_map.1 hf with ⟨r, hr, hrf⟩
      rcases List.mem_cons.1 hr with h1 | h1
      · exfalso
        subst h1
        exact hfs (hrf ▸ hmema)
      · exact ih seen f hfs (List.mem_map.2 ⟨r, h1, hrf⟩)
    · simp only [dedupByFilename, if_neg hmema]
      by_cases hfa : f = a.filename
      · exact ⟨a, List.mem_cons_self _ _, hfa.symm⟩
      · rcases List.mem_map.1 hf with ⟨r, hr, hrf⟩
        rcases List.mem_cons.1 hr with h1 | h1
        · exact absurd (h1 ▸ hrf).symm hfa
        · obtain ⟨r2, hr2, hrf2⟩ := ih (a.filename :: seen) f
            (by
              intro hc
              rcases List.mem_cons.1 hc with hc1 | hc1
              · exact hfa hc1
              · exact hfs hc1)
            (List.mem_map.2 ⟨r, h1, hrf⟩)
          exact ⟨r2, List.mem_cons_of_mem _ hr2, hrf2⟩

/-- The tagged rows are pairwise ordered by Filename then PRIORITY, since
setting AUTO_TAG does not change either field. -/
theorem taggedRows_pairwise (classNames : List String) (t : PredTable)
    (settings : List (String × ℚ)) (cl : List ClipRow) :
    (taggedRows classNames t settings cl).Pairwise rowLeFnPr := by
  unfold taggedRows
  rw [List.pairwise_map]
  exact (List.sorted_insertionSort rowLeFnPr (mergedRows classNames t settings cl)).imp
    (fun h => h)

/-- The TOP1MATCH values among the sorted rows of one filename are exactly
the classes of the settings that the clip clears. -/
theorem sortedRows_class_mem (classNames : List String) (t : PredTable)
    (settings : List (String × ℚ)) (cl : List ClipRow) (f c : String) :
    (c ∈ ((sortedRows classNames t settings cl).filter
        (fun r => r.filename = f)).map (fun r => r.top1match)) ↔
      ∃ p ∈ settings, clearsB t f p = true ∧ p.1 = c := by
  constructor
  · intro hc
    obtain ⟨r, hr, hrc⟩ := List.mem_map.1 hc
    have hrf : r.filename = f := by
      have := (List.mem_filter.1 hr).2
      simpa using this
    have hrs : r ∈ mergedRows classNames t settings cl :=
      (List.perm_insertionSort rowLeFnPr _).mem_iff.1 (List.mem_filter.1 hr).1
    obtain ⟨e, he, hem⟩ := List.mem_map.1 hrs
    obtain ⟨p, hp, rr, hrr, hc1, h0, h1, hsc, hee⟩ := (mem_reviewEntries t settings e).1 he
    refine ⟨p, hp, ?_, ?_⟩
    · rw [clearsB_iff]
      refine ⟨hc1, h0, h1, rr, hrr, ?_, hsc⟩
      have h3 : e.row.filename = f := by rw [← hem] at hrf; exact hrf
      rw [hee] at h3
      exact h3
    · have h4 : e.cls = c := by rw [← hem] at hrc; exact hrc
      rw [hee] at h4
      exact h4
  · rintro ⟨p, hp, hcl, hpc⟩
    rw [clearsB_iff] at hcl
    obtain ⟨hc1, h0, h1, rr, hrr, hrf, hsc⟩ := hcl
    have he : (⟨rr, p.1, rr.score p.1, p.2⟩ : Entry) ∈ reviewEntries t settings :=
      (mem_reviewEntries t settings _).2 ⟨p, hp, rr, hrr, hc1, h0, h1, hsc, rfl⟩
    have hrm : mkReviewRow (settings.map Prod.fst) cl classNames
        ⟨rr, p.1, rr.score p.1, p.2⟩ ∈ mergedRows classNames t settings cl :=
      List.mem_map_of_mem _ he
    have hrs : mkReviewRow (settings.map Prod.fst) cl classNames
        ⟨rr, p.1, rr.score p.1, p.2⟩ ∈ sortedRows classNames t settings cl :=
      (List.perm_insertionSort rowLeFnPr _).mem_iff.2 hrm
    refine List.mem_map.2 ⟨mkReviewRow (settings.map Prod.fst) cl classNames
      ⟨rr, p.1, rr.score p.1, p.2⟩, List.mem_filter.2 ⟨hrs, by simpa using hrf⟩, hpc ▸ rfl⟩

/-- C2: for every clip that clears at least one threshold of the ordered
criteria, the review-table row emitted for that clip has TOP1MATCH equal
to the first class in criteria order whose threshold its score meets,
PRIORITY equal to one plus the index of that class in the criteria
ordering, and AUTO_TAG equal to the distinct cleared classes sorted
alphabetically and joined with a plus sign. -/
theorem makeReviewTable_top1_priority_autotag (classNames : List String)
    (t : PredTable) (settings : List (String × ℚ)) (out : List ReviewRow)
    (f : String) (p : String × ℚ)
    (hnd : (settings.map Prod.fst).Nodup)
    (h : makeReviewTable classNames t settings = .ok out)
    (hfc : firstClear t f settings = some p) :
    (∃ row ∈ out, row.filename = f) ∧
    ∀ row ∈ out, row.filename = f →
      row.top1match = p.1 ∧
      row.priority = (settings.map Prod.fst).indexOf p.1 + 1 ∧
      row.autoTag = String.intercalate "+" (sortDedup (clearedClasses t f settings)) := by
  obtain ⟨hpmem, hpcl, hpmin⟩ := firstClear_spec t f settings p hnd hfc
  rw [clearsB_iff] at hpcl
  obtain ⟨hc1, h0, h1, rr, hrr, hrf, hsc⟩ := hpcl
  have heP : (⟨rr, p.1, rr.score p.1, p.2⟩ : Entry) ∈ reviewEntries t settings :=
    (mem_reviewEntries t settings _).2 ⟨p, hpmem, rr, hrr, hc1, h0, h1, hsc, rfl⟩
  unfold makeReviewTable at h
  split at h
  · cases h
  · next cl heq =>
    split at h
    · next hemp =>
      exfalso
      rw [List.isEmpty_iff] at hemp
      rw [hemp] at heP
      cases heP
    · split at h
      · cases h
      · split at h
        · cases h
        · cases h
          have htp : (taggedRows classNames t settings cl).Pairwise rowLeFnPr :=
            taggedRows_pairwise classNames t settings cl
          have hmkPmem : mkReviewRow (settings.map Prod.fst) cl classNames
              ⟨rr, p.1, rr.score p.1, p.2⟩ ∈ sortedRows classNames t settings cl :=
            (List.perm_insertionSort rowLeFnPr _).mem_iff.2 (List.mem_map_of_mem _ heP)
          have hupdP : ({ mkReviewRow (settings.map Prod.fst) cl classNames
              ⟨rr, p.1, rr.score p.1, p.2⟩ with
              autoTag := autoTagString (sortedRows classNames t settings cl)
                (mkReviewRow (settings.map Prod.fst) cl classNames
                  ⟨rr, p.1, rr.score p.1, p.2⟩).filename } : ReviewRow) ∈
              taggedRows classNames t settings cl := by
            unfold taggedRows
            exact List.mem_map_of_mem _ hmkPmem
          have hfP : ({ mkReviewRow (settings.map Prod.fst) cl classNames
              ⟨rr, p.1, rr.score p.1, p.2⟩ with
              autoTag := autoTagString (sortedRows classNames t settings cl)
                (mkReviewRow (settings.map Prod.fst) cl classNames
                  ⟨rr, p.1, rr.score p.1, p.2⟩).filename } : ReviewRow).filename = f := hrf
          constructor
          · have hfin : f ∈ (taggedRows classNames t settings cl).map (fun r => r.filename) :=
              List.mem_map.2 ⟨_, hupdP, hfP⟩
            obtain ⟨r0, hr0, hr0f⟩ :=
              dedupByFilename_exists (taggedRows classNames t settings cl) [] f (by simp) hfin
            exact ⟨r0, (List.perm_insertionSort rowLeTmFn _).mem_iff.2 hr0, hr0f⟩
          · intro row hrow hrowf
            have hrowd : row ∈ dedupByFilename [] (taggedRows classNames t settings cl) :=
              (List.perm_insertionSort rowLeTmFn _).mem_iff.1 hrow
            have hrowT : row ∈ taggedRows classNames t settings cl :=
              ((dedupByFilename_spec (taggedRows classNames t settings cl) []).1 row hrowd).1
            have hrowT2 : row ∈ (sortedRows classNames t settings cl).map (fun r =>
                { r with autoTag :=
                    (autoTagString (sortedRows classNames t settings cl) r.filename) }) :=
              hrowT
            obtain ⟨rs, hrs, hrseq⟩ := List.mem_map.1 hrowT2
            obtain ⟨e, he, hes⟩ := List.mem_map.1
              ((List.perm_insertionSort rowLeFnPr _).mem_iff.1 hrs)
            have hrowtop : row.top1match = e.cls := by rw [← hrseq, ← hes]; rfl
            have hrowpri : row.priority = (settings.map Prod.fst).indexOf e.cls + 1 := by
              rw [← hrseq, ← hes]; rfl
            have hrowfn : row.filename = e.row.filename := by rw [← hrseq, ← hes]; rfl
            obtain ⟨pe, hpe, re, hre, hec1, he0, he1, hesc, heeq⟩ :=
              (mem_reviewEntries t settings e).1 he
            have hecls : e.cls = pe.1 := by rw [heeq]
            have herow : e.row = re := by rw [heeq]
            have hpecl : clearsB t f pe = true := by
              rw [clearsB_iff]
              refine ⟨hec1, he0, he1, re, hre, ?_, hesc⟩
              rw [← herow, ← hrowfn, hrowf]
            have hmin := dedupByFilename_min (taggedRows classNames t settings cl) htp []
              row hrowd _ hupdP (by rw [hfP, hrowf])
            have hple : row.priority ≤ (settings.map Prod.fst).indexOf p.1 + 1 := by
              rcases hmin with hlt | ⟨heq2, hle⟩
              · exfalso
                rw [hrowf, hfP] at hlt
                exact sLt_irrefl f hlt
              · exact hle
            have hidxle : (settings.map Prod.fst).indexOf p.1 ≤
                (settings.map Prod.fst).indexOf pe.1 := hpmin pe hpe hpecl
            have hidx : (settings.map Prod.fst).indexOf pe.1 =
                (settings.map Prod.fst).indexOf p.1 := by
              rw [hrowpri, hecls] at hple
              omega
            have hpep : pe.1 = p.1 :=
              (List.indexOf_inj (List.mem_map.2 ⟨pe, hpe, rfl⟩)
                (List.mem_map.2 ⟨p, hpmem, rfl⟩)).1 hidx
            have hrsfn : rs.filename = f := by
              have h2 := hrowf
              rw [← hrseq] at h2
              exact h2
            have hat : row.autoTag =
                autoTagString (sortedRows classNames t settings cl) f := by
              rw [← hrseq]
              show autoTagString (sortedRows classNames t settings cl) rs.filename = _
              rw [hrsfn]
            have htag : autoTagString (sortedRows classNames t settings cl) f =
                String.intercalate "+" (sortDedup (clearedClasses t f settings)) := by
              unfold autoTagString
              congr 1
              apply sortDedup_ext
              intro c
              rw [sortedRows_class_mem]
              unfold clearedClasses
              constructor
              · rintro ⟨pp, hpp, hcl2, hc2⟩
                exact List.mem_map.2 ⟨pp, List.mem_filter.2 ⟨hpp, hcl2⟩, hc2⟩
              · intro hcm
                obtain ⟨pp, hppf, hc2⟩ := List.mem_map.1 hcm
                exact ⟨pp, List.mem_of_mem_filter hppf, List.of_mem_filter hppf, hc2⟩
            refine ⟨by rw [hrowtop, hecls, hpep], by rw [hrowpri, hecls, hpep], ?_⟩
            rw [hat, htag]

/-- Two-class one-clip table realizing the example of the claim: criteria
A at 0.9 before B at 0.5, clip scoring A = 0.95 and B = 0.6. -/
def wTable2 : PredTable :=
  ⟨["A", "B"],
   [⟨"COA_23459-C_20230316_081502_part_001.png",
     [("A", ⟨19, 20, by decide, by decide⟩), ("B", ⟨3, 5, by decide, by decide⟩)]⟩]⟩

/-- Ordered criteria of the example: A at 0.9 before B at 0.5. -/
def wCrit : List (String × ℚ) :=
  [("A", ⟨9, 10, by decide, by decide⟩), ("B", ⟨1, 2, by decide, by decide⟩)]

/-- Review table of wTable2 under wCrit. -/
def wReviewOut2 : List ReviewRow :=
  [⟨"COA_23459-C_20230316_081502_part_001.png", "A", ⟨19, 20, by decide, by decide⟩,
    ⟨9, 10, by decide, by decide⟩, 1, "COA", "23459", "C", "001", 1, 1, "A+B",
    [("A", ⟨19, 20, by decide, by decide⟩), ("B", ⟨3, 5, by decide, by decide⟩)]⟩]

/-- Witness for makeReviewTable_top1_priority_autotag at the example of
the claim: TOP1MATCH is A, PRIORITY is 1 and AUTO_TAG is A+B. -/
theorem makeReviewTable_top1_priority_autotag_witness :
    (∃ row ∈ wReviewOut2, row.filename = "COA_23459-C_20230316_081502_part_001.png") ∧
    ∀ row ∈ wReviewOut2, row.filename = "COA_23459-C_20230316_081502_part_001.png" →
      row.top1match = "A" ∧
      row.priority = 1 ∧
      row.autoTag = "A+B" :=
  makeReviewTable_top1_priority_autotag ["A", "B"] wTable2 wCrit wReviewOut2
    "COA_23459-C_20230316_081502_part_001.png" ("A", ⟨9, 10, by decide, by decide⟩)
    (by decide) (by rfl) (by rfl)
